import Mathlib

/-!
Shallow embedding of the technical-indicator engine of `dmfinal.py`
(`compute_technical_indicators`, the function the specification calls
IndicatorEngine).  Pandas cells are modelled exactly: finite floats as
rationals, the special values NaN and plus or minus infinity as dedicated
constructors, and the one place a square root is produced (the rolling
sample standard deviation) as an exact symbolic value `a + b·√c`.
A data frame is a Date column (the ordering key) together with named
value columns; `sort_values`, column lookup and column assignment are
modelled structurally.
-/

/-- Model of one pandas cell.  `val q` is a finite value, `pinf` and `ninf`
are the two IEEE infinities (they arise only from the division in the RSI
block), `nan` is a missing value, and `irr a b c` is the exact value
`a + b·√c` with `0 ≤ c`, produced only by the rolling standard deviation of
the Bollinger block. -/
inductive FV where
  | nan : FV
  | pinf : FV
  | ninf : FV
  | val : ℚ → FV
  | irr : ℚ → ℚ → ℚ → FV
deriving DecidableEq

/-- IEEE negation on modelled cells. -/
def FV.neg : FV → FV
  | nan => nan
  | pinf => ninf
  | ninf => pinf
  | val a => val (-a)
  | irr a b c => irr (-a) (-b) c

/-- IEEE addition on modelled cells.  Two `irr` values with different
radicands have no representation; that arm cannot be reached by the engine
(each row of the Bollinger block uses a single radicand) and is mapped to
`nan`. -/
def FV.add : FV → FV → FV
  | nan, _ => nan
  | _, nan => nan
  | pinf, ninf => nan
  | ninf, pinf => nan
  | pinf, _ => pinf
  | _, pinf => pinf
  | ninf, _ => ninf
  | _, ninf => ninf
  | val a, val b => val (a + b)
  | val d, irr a b c => irr (a + d) b c
  | irr a b c, val d => irr (a + d) b c
  | irr a b c, irr d e f => if c = f then irr (a + d) (b + e) c else nan

/-- IEEE subtraction, as addition of the negation. -/
def FV.sub (x y : FV) : FV := x.add y.neg

/-- Multiplication by a finite scalar, the only multiplication the engine
performs (`close[i] * α`, `EMA[i-1] * (1-α)`, `2 * BB_STD`). -/
def FV.smul (q : ℚ) : FV → FV
  | nan => nan
  | pinf => if q = 0 then nan else if 0 < q then pinf else ninf
  | ninf => if q = 0 then nan else if 0 < q then ninf else pinf
  | val a => val (q * a)
  | irr a b c => if q = 0 then val 0 else irr (q * a) (q * b) c

/-- IEEE division on modelled cells.  The finite-by-zero arm produces the
signed infinity or `nan` exactly as pandas float division does; the arms
dividing by or into an `irr` value cannot be reached by the engine (the
standard-deviation column is never divided) and are mapped to `nan`. -/
def FV.div : FV → FV → FV
  | nan, _ => nan
  | _, nan => nan
  | pinf, pinf => nan
  | pinf, ninf => nan
  | ninf, pinf => nan
  | ninf, ninf => nan
  | pinf, val b => if 0 ≤ b then pinf else ninf
  | ninf, val b => if 0 ≤ b then ninf else pinf
  | val _, pinf => val 0
  | val _, ninf => val 0
  | val a, val b =>
      if b = 0 then (if a = 0 then nan else if 0 < a then pinf else ninf)
      else val (a / b)
  | irr _ _ _, pinf => val 0
  | irr _ _ _, ninf => val 0
  | pinf, irr _ _ _ => nan
  | ninf, irr _ _ _ => nan
  | irr a b c, val d => if d = 0 then nan else irr (a / d) (b / d) c
  | val _, irr _ _ _ => nan
  | irr _ _ _, irr _ _ _ => nan

/-- Decision procedure for `0 < a + b·√c` (with `0 ≤ c`), used to give the
comparison on `irr` cells exactly. -/
def FV.irrPos (a b c : ℚ) : Bool :=
  if b = 0 then decide (0 < a)
  else if 0 < b then
    (if 0 ≤ a then decide (0 < a ∨ 0 < c) else decide (a ^ 2 < b ^ 2 * c))
  else decide (0 < a ∧ b ^ 2 * c < a ^ 2)

/-- Python comparison `x > 0` on modelled cells; `NaN > 0` is `False`. -/
def FV.gtZero : FV → Bool
  | nan => false
  | pinf => true
  | ninf => false
  | val a => decide (0 < a)
  | irr a b c => FV.irrPos a b c

/-- Python comparison `x < 0` on modelled cells; `NaN < 0` is `False`. -/
def FV.ltZero : FV → Bool
  | nan => false
  | pinf => false
  | ninf => true
  | val a => decide (a < 0)
  | irr a b c => FV.irrPos (-a) (-b) c

/-- Embedding of the lambda `x if x > 0 else 0` of the RSI block. -/
def gainMap (x : FV) : FV := if x.gtZero then x else FV.val 0

/-- Embedding of the lambda `-x if x < 0 else 0` of the RSI block. -/
def lossMap (x : FV) : FV := if x.ltZero then x.neg else FV.val 0

/-- Real value denoted by a finite cell (`none` for NaN and infinities). -/
noncomputable def FV.interpR : FV → Option ℝ
  | val q => some (q : ℝ)
  | irr a b c => some ((a : ℝ) + (b : ℝ) * Real.sqrt (c : ℝ))
  | _ => none

/-- Column of length `m` whose entry at position `i` is `g i`. -/
def idxMap (m : ℕ) (g : ℕ → FV) : List FV := (List.range m).map g

/-- Window of the `n` entries ending at position `i` inclusive (the slice a
pandas rolling window of size `n` sees at row `i` once filled). -/
def window (n : ℕ) (xs : List FV) (i : ℕ) : List FV :=
  (xs.drop (i + 1 - n)).take n

/-- Sum of a list of cells, with IEEE propagation of NaN and infinities. -/
def FV.sumL (xs : List FV) : FV := xs.foldl FV.add (FV.val 0)

/-- Embedding of `Series.rolling(window=n).mean()`: NaN until the window is
filled, afterwards the window sum divided by `n`. -/
def rollingMean (n : ℕ) (xs : List FV) : List FV :=
  idxMap xs.length fun i =>
    if i + 1 < n then FV.nan
    else FV.smul (1 / (n : ℚ)) (FV.sumL (window n xs i))

/-- Finite values of a list of cells, `none` as soon as one cell is not
finite. -/
def getVals? : List FV → Option (List ℚ)
  | [] => some []
  | FV.val q :: rest => (getVals? rest).map (fun ws => q :: ws)
  | _ => none

/-- Sample variance (denominator `n - 1`, pandas default `ddof=1`). -/
def sampleVar (ws : List ℚ) : ℚ :=
  ((ws.map fun x => (x - ws.sum / (ws.length : ℚ)) ^ 2).sum) /
    ((ws.length : ℚ) - 1)

/-- Embedding of `Series.rolling(window=n).std()`: NaN until the window is
filled, afterwards the square root of the sample variance of the window,
kept exact as the cell `0 + 1·√variance`. -/
def rollingStd (n : ℕ) (xs : List FV) : List FV :=
  idxMap xs.length fun i =>
    if i + 1 < n then FV.nan
    else
      match getVals? (window n xs i) with
      | none => FV.nan
      | some ws => FV.irr 0 1 (sampleVar ws)

/-- Embedding of `Series.diff(1)`: NaN at position 0, first differences
afterwards. -/
def diffL (xs : List FV) : List FV :=
  idxMap xs.length fun i =>
    if i = 0 then FV.nan
    else FV.sub (xs.getD i (FV.val 0)) (xs.getD (i - 1) (FV.val 0))

/-- Tail of the recursion of `Series.ewm(span, adjust=False).mean()`:
`e[i] = x[i]·α + e[i-1]·(1-α)` given the previous smoothed value. -/
def ewmAux (a : ℚ) (prev : FV) : List FV → List FV
  | [] => []
  | x :: rest =>
      let e := FV.add (FV.smul a x) (FV.smul (1 - a) prev)
      e :: ewmAux a e rest

/-- Embedding of `Series.ewm(span, adjust=False).mean()` with
`a = 2/(span+1)`: the recursion is seeded by the first value. -/
def ewm (a : ℚ) : List FV → List FV
  | [] => []
  | x :: rest => x :: ewmAux a x rest

/-- Data frame: the Date column (ordering key of `sort_values`) plus the
named value columns, each of the same length as the Date column in a
well-formed frame. -/
structure Frame where
  dates : List ℤ
  cols : List (String × List FV)
deriving DecidableEq

/-- Column lookup, `data[name]`; `none` models the KeyError raised on a
missing column. -/
def Frame.getCol? (f : Frame) (nm : String) : Option (List FV) :=
  (f.cols.find? fun p => p.1 == nm).map Prod.snd

/-- Column assignment `data[name] = v`: replaces the column in place when
the name exists, otherwise appends it on the right. -/
def Frame.setCol (f : Frame) (nm : String) (v : List FV) : Frame :=
  if f.cols.any fun p => p.1 == nm then
    { f with cols := f.cols.map fun p => if p.1 == nm then (nm, v) else p }
  else
    { f with cols := f.cols ++ [(nm, v)] }

/-- Permutation of row indices that sorts the Date column ascending. -/
def sortIdx (d : List ℤ) : List ℕ :=
  (List.range d.length).insertionSort fun i j => d.getD i 0 ≤ d.getD j 0

/-- Embedding of `data.sort_values('Date')`: every column is rearranged by
the permutation that sorts the Date column ascending. -/
def sortFrame (f : Frame) : Frame :=
  { dates := (sortIdx f.dates).map fun i => f.dates.getD i 0,
    cols := f.cols.map fun p =>
      (p.1, (sortIdx f.dates).map fun i => p.2.getD i FV.nan) }

/-- Embedding of the `"SMA(10)"` block (source line 36 to 37). -/
def sma10Block (inds : List String) (close : List FV) (f : Frame) : Frame :=
  if "SMA(10)" ∈ inds then f.setCol "SMA10" (rollingMean 10 close) else f

/-- Embedding of the `"SMA(50)"` block (source line 40 to 41). -/
def sma50Block (inds : List String) (close : List FV) (f : Frame) : Frame :=
  if "SMA(50)" ∈ inds then f.setCol "SMA50" (rollingMean 50 close) else f

/-- Embedding of the `"EMA(10)"` block (source line 44 to 45): span 10
gives the smoothing factor `2/11`. -/
def ema10Block (inds : List String) (close : List FV) (f : Frame) : Frame :=
  if "EMA(10)" ∈ inds then f.setCol "EMA10" (ewm (2 / 11) close) else f

/-- Embedding of the `"EMA(50)"` block (source line 48 to 49): span 50
gives the smoothing factor `2/51`. -/
def ema50Block (inds : List String) (close : List FV) (f : Frame) : Frame :=
  if "EMA(50)" ∈ inds then f.setCol "EMA50" (ewm (2 / 51) close) else f

/-- MACD line, source line 55: `EMA12 - EMA26` with spans 12 and 26
(smoothing factors `2/13` and `2/27`). -/
def macdL (close : List FV) : List FV :=
  List.zipWith FV.sub (ewm (2 / 13) close) (ewm (2 / 27) close)

/-- MACD signal line, source line 56: span-9 EMA of the MACD column
(smoothing factor `2/10`). -/
def macdSignalL (close : List FV) : List FV := ewm (2 / 10) (macdL close)

/-- MACD histogram, source line 57: `MACD - MACD_Signal`. -/
def macdHistL (close : List FV) : List FV :=
  List.zipWith FV.sub (macdL close) (macdSignalL close)

/-- Embedding of the `"MACD"` block (source line 52 to 57): the five
columns `EMA12`, `EMA26`, `MACD`, `MACD_Signal`, `MACD_Hist` are all
stored. -/
def macdBlock (inds : List String) (close : List FV) (f : Frame) : Frame :=
  if "MACD" ∈ inds then
    ((((f.setCol "EMA12" (ewm (2 / 13) close)).setCol
        "EMA26" (ewm (2 / 27) close)).setCol
        "MACD" (macdL close)).setCol
        "MACD_Signal" (macdSignalL close)).setCol "MACD_Hist" (macdHistL close)
  else f

/-- Gain column of the RSI block, source line 63. -/
def gainL (close : List FV) : List FV := (diffL close).map gainMap

/-- Loss column of the RSI block, source line 64. -/
def lossL (close : List FV) : List FV := (diffL close).map lossMap

/-- Average gain, source line 65: 14-period rolling mean of the gains. -/
def avgGainL (close : List FV) : List FV := rollingMean 14 (gainL close)

/-- Average loss, source line 66: 14-period rolling mean of the losses. -/
def avgLossL (close : List FV) : List FV := rollingMean 14 (lossL close)

/-- Relative strength, source line 67: `avg_gain / avg_loss` with IEEE
division. -/
def rsL (close : List FV) : List FV :=
  List.zipWith FV.div (avgGainL close) (avgLossL close)

/-- RSI column, source line 68: `100 - 100/(1 + rs)`. -/
def rsiL (close : List FV) : List FV :=
  (rsL close).map fun r =>
    FV.sub (FV.val 100) (FV.div (FV.val 100) (FV.add (FV.val 1) r))

/-- Embedding of the `"RSI"` block (source line 60 to 68): the seven
columns `diff`, `gain`, `loss`, `avg_gain`, `avg_loss`, `rs`, `RSI` are all
stored. -/
def rsiBlock (inds : List String) (close : List FV) (f : Frame) : Frame :=
  if "RSI" ∈ inds then
    ((((((f.setCol "diff" (diffL close)).setCol "gain" (gainL close)).setCol
        "loss" (lossL close)).setCol "avg_gain" (avgGainL close)).setCol
        "avg_loss" (avgLossL close)).setCol "rs" (rsL close)).setCol
        "RSI" (rsiL close)
  else f

/-- Upper Bollinger band, source line 74: `BB_MA + 2 * BB_STD`. -/
def bbUpperL (close : List FV) : List FV :=
  List.zipWith FV.add (rollingMean 20 close) ((rollingStd 20 close).map (FV.smul 2))

/-- Lower Bollinger band, source line 75: `BB_MA - 2 * BB_STD`. -/
def bbLowerL (close : List FV) : List FV :=
  List.zipWith FV.sub (rollingMean 20 close) ((rollingStd 20 close).map (FV.smul 2))

/-- Embedding of the `"Bollinger Bands"` block (source line 71 to 75). -/
def bbBlock (inds : List String) (close : List FV) (f : Frame) : Frame :=
  if "Bollinger Bands" ∈ inds then
    (((f.setCol "BB_MA" (rollingMean 20 close)).setCol
        "BB_STD" (rollingStd 20 close)).setCol
        "BB_Upper" (bbUpperL close)).setCol "BB_Lower" (bbLowerL close)
  else f

/-- Failure surfaced by the engine: the required base column is absent
(the KeyError on `data['Close']`). -/
inductive EngineError where
  | missingColumn : String → EngineError
deriving DecidableEq

/-- Embedding of `compute_technical_indicators` (source line 23 to 77):
sort by Date, read the close column (failing when it is absent), then run
the seven conditional indicator blocks in source order. -/
def compute_technical_indicators (data : Frame) (indicators : List String) :
    Except EngineError Frame :=
  let sorted := sortFrame data
  match sorted.getCol? "Close" with
  | none => .error (.missingColumn "Close")
  | some close =>
      .ok (bbBlock indicators close
            (rsiBlock indicators close
              (macdBlock indicators close
                (ema50Block indicators close
                  (ema10Block indicators close
                    (sma50Block indicators close
                      (sma10Block indicators close sorted)))))))

/-- Columns the engine attaches for one requested indicator token. -/
def familyCols (ind : String) : List String :=
  if ind = "SMA(10)" then ["SMA10"]
  else if ind = "SMA(50)" then ["SMA50"]
  else if ind = "EMA(10)" then ["EMA10"]
  else if ind = "EMA(50)" then ["EMA50"]
  else if ind = "MACD" then ["EMA12", "EMA26", "MACD", "MACD_Signal", "MACD_Hist"]
  else if ind = "RSI" then
    ["diff", "gain", "loss", "avg_gain", "avg_loss", "rs", "RSI"]
  else if ind = "Bollinger Bands" then ["BB_MA", "BB_STD", "BB_Upper", "BB_Lower"]
  else []

/-- Rational mirror of the rolling window: the slice of the `n` entries
ending at position `i` inclusive. -/
def windowQ (n : ℕ) (cs : List ℚ) (i : ℕ) : List ℚ := (cs.drop (i + 1 - n)).take n

/-- Rational mirror of the tail of the span-based EMA recursion. -/
def emaQAux (a : ℚ) (prev : ℚ) : List ℚ → List ℚ
  | [] => []
  | x :: rest => (x * a + prev * (1 - a)) :: emaQAux a (x * a + prev * (1 - a)) rest

/-- Rational mirror of the span-based recursive EMA, seeded by the first
value: `e[0] = x[0]` and `e[i] = x[i]·a + e[i-1]·(1-a)`. -/
def emaQ (a : ℚ) : List ℚ → List ℚ
  | [] => []
  | x :: rest => x :: emaQAux a x rest

/-- Rational mirror of the MACD line: `EMA12 - EMA26` pointwise. -/
def macdQ (cs : List ℚ) : List ℚ :=
  List.zipWith (fun x y => x - y) (emaQ (2 / 13) cs) (emaQ (2 / 27) cs)

/-- Rational mirror of the gain column: position 0 holds the synthetic
zero standing for the undefined first difference, afterwards the positive
part of the first difference. -/
def gainQ (cs : List ℚ) : List ℚ :=
  (List.range cs.length).map fun i =>
    if i = 0 then 0
    else if 0 < cs.getD i 0 - cs.getD (i - 1) 0 then cs.getD i 0 - cs.getD (i - 1) 0
    else 0

/-- Rational mirror of the loss column: position 0 holds the synthetic
zero, afterwards the absolute value of the negative part of the first
difference. -/
def lossQ (cs : List ℚ) : List ℚ :=
  (List.range cs.length).map fun i =>
    if i = 0 then 0
    else if cs.getD i 0 - cs.getD (i - 1) 0 < 0 then -(cs.getD i 0 - cs.getD (i - 1) 0)
    else 0

/-- Rational 14-period average gain at position `i` (defined for
`13 ≤ i < length`). -/
def avgGainQ (cs : List ℚ) (i : ℕ) : ℚ := (windowQ 14 (gainQ cs) i).sum / 14

/-- Rational 14-period average loss at position `i`. -/
def avgLossQ (cs : List ℚ) (i : ℕ) : ℚ := (windowQ 14 (lossQ cs) i).sum / 14

/-- Frame returned by a successful engine call (the empty frame on an
error, used only to state closed concrete facts). -/
def outOf (e : Except EngineError Frame) : Frame :=
  match e with
  | .ok f => f
  | .error _ => { dates := [], cols := [] }

/-- Cell of column `nm` at row `i` of a frame (NaN when absent). -/
def colAt (f : Frame) (nm : String) (i : ℕ) : FV :=
  ((f.getCol? nm).getD []).getD i FV.nan

/-- Date column `0, 1, …, n-1`, already ascending. -/
def natDates (n : ℕ) : List ℤ := (List.range n).map Int.ofNat

/-- Test series: 11 rows, closes 10 to 20 (the SMA scenario of the
specification). -/
def closesA : List ℚ := [10, 11, 12, 13, 14, 15, 16, 17, 18, 19, 20]

/-- Frame for the SMA scenario: 11 ascending rows with closes 10 to 20. -/
def frameA : Frame :=
  { dates := natDates 11, cols := [("Close", closesA.map FV.val)] }

/-- Frame with three ascending rows and closes 1, 2, 3. -/
def frameB : Frame :=
  { dates := natDates 3, cols := [("Close", ([1, 2, 3] : List ℚ).map FV.val)] }

/-- Frame whose rows are out of timestamp order. -/
def frameC : Frame :=
  { dates := [2, 0, 1], cols := [("Close", ([3, 1, 2] : List ℚ).map FV.val)] }

/-- Frame with 14 ascending rows and constant close 100 (every first
difference is zero). -/
def frameD : Frame :=
  { dates := natDates 14,
    cols := [("Close", (List.replicate 14 (100 : ℚ)).map FV.val)] }

/-- Closes 0 to 14, strictly increasing. -/
def closesE : List ℚ := [0, 1, 2, 3, 4, 5, 6, 7, 8, 9, 10, 11, 12, 13, 14]

/-- Frame with 15 ascending rows and strictly increasing closes 0 to 14. -/
def frameE : Frame :=
  { dates := natDates 15, cols := [("Close", closesE.map FV.val)] }

/-- Frame with two ascending rows and closes 4, 15. -/
def frameF : Frame :=
  { dates := natDates 2, cols := [("Close", ([4, 15] : List ℚ).map FV.val)] }

/-- Frame with 25 ascending rows and constant close 100 (the flat
Bollinger scenario of the specification). -/
def frameG : Frame :=
  { dates := natDates 25,
    cols := [("Close", (List.replicate 25 (100 : ℚ)).map FV.val)] }

/-- Frame with one row and no close-price column. -/
def frameH : Frame :=
  { dates := [0], cols := [("Open", [FV.val 1])] }

theorem FV.add_val_val (a b : ℚ) : FV.add (FV.val a) (FV.val b) = FV.val (a + b) := rfl

theorem FV.neg_val (a : ℚ) : FV.neg (FV.val a) = FV.val (-a) := rfl

theorem FV.sub_val_val (a b : ℚ) : FV.sub (FV.val a) (FV.val b) = FV.val (a - b) := by
  simp [FV.sub, FV.add, FV.neg, sub_eq_add_neg]

theorem FV.smul_val (q a : ℚ) : FV.smul q (FV.val a) = FV.val (q * a) := rfl

theorem FV.smul_nan (q : ℚ) : FV.smul q FV.nan = FV.nan := rfl

theorem FV.add_nan (x : FV) : FV.add x FV.nan = FV.nan := by cases x <;> rfl

theorem FV.nan_add (x : FV) : FV.add FV.nan x = FV.nan := by cases x <;> rfl

theorem FV.sub_any_nan (x : FV) : FV.sub x FV.nan = FV.nan := by
  cases x <;> rfl

theorem FV.nan_sub (x : FV) : FV.sub FV.nan x = FV.nan := by cases x <;> rfl

theorem idxMap_length (m : ℕ) (g : ℕ → FV) : (idxMap m g).length = m := by
  simp [idxMap]

theorem idxMap_getD (m : ℕ) (g : ℕ → FV) (i : ℕ) (h : i < m) (d : FV) :
    (idxMap m g).getD i d = g i := by
  have hl : i < (idxMap m g).length := by simpa [idxMap_length]
  rw [List.getD_eq_getElem _ _ hl]
  simp [idxMap]

theorem getD_map_val (cs : List ℚ) (i : ℕ) (h : i < cs.length) (d : FV) :
    (cs.map FV.val).getD i d = FV.val (cs.getD i 0) := by
  have hl : i < (cs.map FV.val).length := by simpa
  rw [List.getD_eq_getElem _ _ hl, List.getD_eq_getElem _ _ h]
  simp

theorem foldl_add_map_val (q : ℚ) (ws : List ℚ) :
    (ws.map FV.val).foldl FV.add (FV.val q) = FV.val (q + ws.sum) := by
  induction ws generalizing q with
  | nil => simp
  | cons w ws ih => simp [FV.add_val_val, ih, add_assoc]

theorem sumL_map_val (ws : List ℚ) : FV.sumL (ws.map FV.val) = FV.val ws.sum := by
  simpa using foldl_add_map_val 0 ws

theorem window_map_val (n : ℕ) (cs : List ℚ) (i : ℕ) :
    window n (cs.map FV.val) i = (windowQ n cs i).map FV.val := by
  simp [window, windowQ, List.map_take, List.map_drop]

theorem windowQ_length (n : ℕ) (cs : List ℚ) (i : ℕ) (h1 : n ≤ i + 1)
    (h2 : i < cs.length) : (windowQ n cs i).length = n := by
  simp only [windowQ, List.length_take, List.length_drop]
  omega

theorem rollingMean_length (n : ℕ) (xs : List FV) :
    (rollingMean n xs).length = xs.length := by
  simp [rollingMean, idxMap_length]

theorem rollingMean_map_val (n : ℕ) (cs : List ℚ) (i : ℕ) (h : i < cs.length)
    (d : FV) :
    (rollingMean n (cs.map FV.val)).getD i d =
      if i + 1 < n then FV.nan else FV.val ((windowQ n cs i).sum / n) := by
  rw [rollingMean, idxMap_getD _ _ _ (by simpa) d]
  by_cases hn : i + 1 < n
  · simp [hn]
  · simp only [hn, if_false, window_map_val, sumL_map_val, FV.smul_val]
    rw [one_div_mul_eq_div]

theorem getVals?_map_val (ws : List ℚ) : getVals? (ws.map FV.val) = some ws := by
  induction ws with
  | nil => rfl
  | cons w ws ih => simp [getVals?, ih]

theorem rollingStd_length (n : ℕ) (xs : List FV) :
    (rollingStd n xs).length = xs.length := by
  simp [rollingStd, idxMap_length]

theorem rollingStd_map_val (n : ℕ) (cs : List ℚ) (i : ℕ) (h : i < cs.length)
    (d : FV) :
    (rollingStd n (cs.map FV.val)).getD i d =
      if i + 1 < n then FV.nan else FV.irr 0 1 (sampleVar (windowQ n cs i)) := by
  rw [rollingStd, idxMap_getD _ _ _ (by simpa) d]
  by_cases hn : i + 1 < n
  · simp [hn]
  · simp [hn, window_map_val, getVals?_map_val]

theorem diffL_length (xs : List FV) : (diffL xs).length = xs.length := by
  simp [diffL, idxMap_length]

theorem diffL_map_val (cs : List ℚ) (i : ℕ) (h : i < cs.length) (d : FV) :
    (diffL (cs.map FV.val)).getD i d =
      if i = 0 then FV.nan else FV.val (cs.getD i 0 - cs.getD (i - 1) 0) := by
  rw [diffL, idxMap_getD _ _ _ (by simpa) d]
  by_cases h0 : i = 0
  · simp [h0]
  · have h1 : i - 1 < cs.length := by omega
    simp [h0, getD_map_val cs i h, getD_map_val cs (i - 1) h1, FV.sub_val_val]

theorem ewmAux_length (a : ℚ) (p : FV) (xs : List FV) :
    (ewmAux a p xs).length = xs.length := by
  induction xs generalizing p with
  | nil => rfl
  | cons x rest ih => simp [ewmAux, ih]

theorem ewm_length (a : ℚ) (xs : List FV) : (ewm a xs).length = xs.length := by
  cases xs with
  | nil => rfl
  | cons x rest => simp [ewm, ewmAux_length]

theorem ewmAux_map_val (a p : ℚ) (cs : List ℚ) :
    ewmAux a (FV.val p) (cs.map FV.val) = (emaQAux a p cs).map FV.val := by
  induction cs generalizing p with
  | nil => rfl
  | cons x rest ih =>
      simp only [List.map_cons, ewmAux, emaQAux, FV.smul_val, FV.add_val_val]
      rw [show a * x + (1 - a) * p = x * a + p * (1 - a) by ring]
      rw [ih]

theorem ewm_map_val (a : ℚ) (cs : List ℚ) :
    ewm a (cs.map FV.val) = (emaQ a cs).map FV.val := by
  cases cs with
  | nil => rfl
  | cons x rest => simp [ewm, emaQ, ewmAux_map_val]

theorem emaQAux_length (a p : ℚ) (cs : List ℚ) :
    (emaQAux a p cs).length = cs.length := by
  induction cs generalizing p with
  | nil => rfl
  | cons x rest ih => simp [emaQAux, ih]

theorem emaQ_length (a : ℚ) (cs : List ℚ) : (emaQ a cs).length = cs.length := by
  cases cs with
  | nil => rfl
  | cons x rest => simp [emaQ, emaQAux_length]

theorem emaQAux_getD_succ (a : ℚ) (cs : List ℚ) (p : ℚ) (i : ℕ)
    (h : i + 1 < cs.length) :
    (emaQAux a p cs).getD (i + 1) 0 =
      cs.getD (i + 1) 0 * a + (emaQAux a p cs).getD i 0 * (1 - a) := by
  induction cs generalizing p i with
  | nil => simp at h
  | cons x rest ih =>
      cases i with
      | zero =>
          cases rest with
          | nil => simp at h
          | cons y rest2 => simp [emaQAux]
      | succ j =>
          have h2 : j + 1 < rest.length := by simpa using h
          simpa [emaQAux] using ih (x * a + p * (1 - a)) j h2

theorem emaQ_getD_zero (a : ℚ) (cs : List ℚ) (h : 0 < cs.length) :
    (emaQ a cs).getD 0 0 = cs.getD 0 0 := by
  cases cs with
  | nil => simp at h
  | cons x rest => rfl

theorem emaQ_getD_succ (a : ℚ) (cs : List ℚ) (i : ℕ) (h : i + 1 < cs.length) :
    (emaQ a cs).getD (i + 1) 0 =
      cs.getD (i + 1) 0 * a + (emaQ a cs).getD i 0 * (1 - a) := by
  cases cs with
  | nil => simp at h
  | cons x rest =>
      cases i with
      | zero =>
          cases rest with
          | nil => simp at h
          | cons y rest2 => simp [emaQ, emaQAux]
      | succ j =>
          have h2 : j + 1 < rest.length := by simpa using h
          simpa [emaQ] using emaQAux_getD_succ a rest x j h2

theorem find?_map_snd (l : List (String × List FV))
    (g : String × List FV → List FV) (nm : String) :
    ((l.map fun p => (p.1, g p)).find? fun p => p.1 == nm) =
      (l.find? fun p => p.1 == nm).map fun p => (p.1, g p) := by
  induction l with
  | nil => rfl
  | cons p rest ih =>
      by_cases hp : p.1 = nm
      · have hb : ((p.1, g p).1 == nm) = true := by simpa using hp
        have hb2 : (p.1 == nm) = true := by simpa using hp
        rw [List.map_cons,
          @List.find?_cons_of_pos _ (fun q => q.1 == nm) (p.1, g p) _ hb,
          @List.find?_cons_of_pos _ (fun q => q.1 == nm) p _ hb2]
        rfl
      · have hb : ¬((p.1, g p).1 == nm) = true := by simpa using hp
        have hb2 : ¬(p.1 == nm) = true := by simpa using hp
        rw [List.map_cons,
          @List.find?_cons_of_neg _ (fun q => q.1 == nm) (p.1, g p) _ hb,
          @List.find?_cons_of_neg _ (fun q => q.1 == nm) p _ hb2, ih]

theorem find?_replace_self (l : List (String × List FV)) (nm : String)
    (v : List FV) (h : (l.any fun p => p.1 == nm) = true) :
    ((l.map fun p => if p.1 == nm then (nm, v) else p).find? fun p => p.1 == nm) =
      some (nm, v) := by
  induction l with
  | nil => simp at h
  | cons p rest ih =>
      by_cases hp : p.1 = nm
      · have hb : (p.1 == nm) = true := by simpa using hp
        have hb2 : (((nm, v) : String × List FV).1 == nm) = true := by simp
        rw [List.map_cons, if_pos hb,
          @List.find?_cons_of_pos _ (fun q => q.1 == nm) (nm, v) _ hb2]
      · have hb : ¬(p.1 == nm) = true := by simpa using hp
        have h2 : (rest.any fun p => p.1 == nm) = true := by
          rcases List.any_eq_true.mp h with ⟨x, hx, he⟩
          rcases List.mem_cons.mp hx with rfl | hx2
          · exact absurd he hb
          · exact List.any_eq_true.mpr ⟨x, hx2, he⟩
        rw [List.map_cons, if_neg hb,
          @List.find?_cons_of_neg _ (fun q => q.1 == nm) p _ hb, ih h2]

theorem find?_map_replace (l : List (String × List FV)) (nm : String)
    (v : List FV) (nm2 : String) (h : nm2 ≠ nm) :
    ((l.map fun p => if p.1 == nm then (nm, v) else p).find? fun p => p.1 == nm2) =
      l.find? fun p => p.1 == nm2 := by
  induction l with
  | nil => rfl
  | cons p rest ih =>
      by_cases hp : p.1 = nm
      · have hb : (p.1 == nm) = true := by simpa using hp
        have hb2 : ¬(((nm, v) : String × List FV).1 == nm2) = true := by
          simpa using Ne.symm h
        have hb3 : ¬(p.1 == nm2) = true := by
          simp only [beq_iff_eq]
          rw [hp]
          exact Ne.symm h
        rw [List.map_cons, if_pos hb,
          @List.find?_cons_of_neg _ (fun q => q.1 == nm2) (nm, v) _ hb2,
          @List.find?_cons_of_neg _ (fun q => q.1 == nm2) p _ hb3, ih]
      · have hb : ¬(p.1 == nm) = true := by simpa using hp
        by_cases hq : p.1 = nm2
        · have hq1 : (p.1 == nm2) = true := by simpa using hq
          rw [List.map_cons, if_neg hb,
            @List.find?_cons_of_pos _ (fun q => q.1 == nm2) p _ hq1,
            @List.find?_cons_of_pos _ (fun q => q.1 == nm2) p _ hq1]
        · have hq1 : ¬(p.1 == nm2) = true := by simpa using hq
          rw [List.map_cons, if_neg hb,
            @List.find?_cons_of_neg _ (fun q => q.1 == nm2) p _ hq1,
            @List.find?_cons_of_neg _ (fun q => q.1 == nm2) p _ hq1, ih]

theorem getCol?_setCol_self (f : Frame) (nm : String) (v : List FV) :
    (f.setCol nm v).getCol? nm = some v := by
  unfold Frame.setCol Frame.getCol?
  by_cases h : (f.cols.any fun p => p.1 == nm) = true
  · rw [if_pos h]
    show ((f.cols.map fun p => if p.1 == nm then (nm, v) else p).find?
        fun p => p.1 == nm).map Prod.snd = some v
    rw [find?_replace_self _ _ _ h]
    rfl
  · rw [if_neg h]
    have hfalse : (f.cols.any fun p => p.1 == nm) = false :=
      Bool.eq_false_iff.mpr h
    have hn : (f.cols.find? fun p => p.1 == nm) = none := by
      rw [List.find?_eq_none]
      intro x hx
      exact (List.any_eq_false.mp hfalse) x hx
    show ((f.cols ++ [(nm, v)]).find? fun p => p.1 == nm).map Prod.snd = some v
    rw [List.find?_append, hn]
    simp [List.find?]

theorem getCol?_setCol_ne (f : Frame) (nm nm2 : String) (v : List FV)
    (h : nm2 ≠ nm) :
    (f.setCol nm v).getCol? nm2 = f.getCol? nm2 := by
  unfold Frame.setCol Frame.getCol?
  by_cases hc : (f.cols.any fun p => p.1 == nm) = true
  · rw [if_pos hc]
    show ((f.cols.map fun p => if p.1 == nm then (nm, v) else p).find?
        fun p => p.1 == nm2).map Prod.snd =
      (f.cols.find? fun p => p.1 == nm2).map Prod.snd
    rw [find?_map_replace _ _ _ _ h]
  · rw [if_neg hc]
    show ((f.cols ++ [(nm, v)]).find? fun p => p.1 == nm2).map Prod.snd =
      (f.cols.find? fun p => p.1 == nm2).map Prod.snd
    have hb : ¬(((nm, v) : String × List FV).1 == nm2) = true := by
      simpa using Ne.symm h
    rw [List.find?_append]
    have : (([(nm, v)] : List (String × List FV)).find? fun p => p.1 == nm2) =
        none := by
      rw [@List.find?_cons_of_neg _ (fun q => q.1 == nm2) (nm, v) _ hb]
      rfl
    rw [this, Option.or_none]

theorem getCol?_setCol (f : Frame) (nm nm2 : String) (v : List FV) :
    (f.setCol nm v).getCol? nm2 = if nm2 = nm then some v else f.getCol? nm2 := by
  by_cases h : nm2 = nm
  · subst h; simp [getCol?_setCol_self]
  · simp [h, getCol?_setCol_ne _ _ _ _ h]

theorem names_setCol (f : Frame) (nm : String) (v : List FV) (m : String) :
    m ∈ (f.setCol nm v).cols.map Prod.fst ↔
      m ∈ f.cols.map Prod.fst ∨ m = nm := by
  unfold Frame.setCol
  by_cases hc : (f.cols.any fun p => p.1 == nm) = true
  · have hmem : nm ∈ f.cols.map Prod.fst := by
      obtain ⟨p, hp, he⟩ := List.any_eq_true.mp hc
      exact List.mem_map.mpr ⟨p, hp, by simpa using he⟩
    have hmap : ((f.cols.map fun p => if p.1 == nm then (nm, v) else p).map Prod.fst) =
        f.cols.map Prod.fst := by
      rw [List.map_map]
      apply List.map_congr_left
      intro p hp
      by_cases h1 : p.1 = nm <;> simp [h1]
    simp only [hc, if_true, hmap]
    constructor
    · exact Or.inl
    · rintro (h | rfl)
      · exact h
      · exact hmem
  · simp [hc, List.mem_append]

theorem dates_setCol (f : Frame) (nm : String) (v : List FV) :
    (f.setCol nm v).dates = f.dates := by
  unfold Frame.setCol
  split <;> rfl

theorem sortIdx_length (d : List ℤ) : (sortIdx d).length = d.length := by
  have h :=
    (List.perm_insertionSort (fun i j => d.getD i 0 ≤ d.getD j 0)
      (List.range d.length)).length_eq
  simp only [List.length_range] at h
  exact h

theorem sortIdx_sorted (d : List ℤ) :
    List.Pairwise (fun i j => d.getD i 0 ≤ d.getD j 0) (sortIdx d) := by
  haveI h1 : IsTotal ℕ fun i j => d.getD i 0 ≤ d.getD j 0 :=
    ⟨fun a b => le_total _ _⟩
  haveI h2 : IsTrans ℕ fun i j => d.getD i 0 ≤ d.getD j 0 :=
    ⟨fun a b c hab hbc => le_trans hab hbc⟩
  simpa [sortIdx, List.Sorted] using
    List.sorted_insertionSort (fun i j => d.getD i 0 ≤ d.getD j 0)
      (List.range d.length)

theorem sortFrame_dates_sorted (f : Frame) :
    List.Pairwise (fun a b : ℤ => a ≤ b) (sortFrame f).dates := by
  have h := sortIdx_sorted f.dates
  have h2 := List.Pairwise.map (fun i => f.dates.getD i 0)
    (fun a b (hab : f.dates.getD a 0 ≤ f.dates.getD b 0) => hab) h
  exact h2

theorem names_sortFrame (f : Frame) :
    (sortFrame f).cols.map Prod.fst = f.cols.map Prod.fst := by
  simp [sortFrame, List.map_map, Function.comp]

theorem getCol?_sortFrame (f : Frame) (nm : String) :
    (sortFrame f).getCol? nm =
      (f.getCol? nm).map fun v => (sortIdx f.dates).map fun i => v.getD i FV.nan := by
  unfold Frame.getCol? sortFrame
  rw [find?_map_snd]
  cases h : f.cols.find? fun p => p.1 == nm <;> simp

theorem map_getD_range {α : Type} (l : List α) (d : α) :
    (List.range l.length).map (fun i => l.getD i d) = l := by
  apply List.ext_getElem
  · simp
  · intro i h1 h2
    simp only [List.getElem_map, List.getElem_range]
    exact List.getD_eq_getElem l d h2

theorem sortIdx_of_sorted (d : List ℤ)
    (hs : List.Pairwise (fun a b : ℤ => a ≤ b) d) :
    sortIdx d = List.range d.length := by
  apply List.Sorted.insertionSort_eq
  rw [List.Sorted, List.pairwise_iff_getElem]
  intro i j hi hj hij
  simp only [List.getElem_range]
  have hi2 : i < d.length := by simpa using hi
  have hj2 : j < d.length := by simpa using hj
  rw [List.getD_eq_getElem _ _ hi2, List.getD_eq_getElem _ _ hj2]
  exact (List.pairwise_iff_getElem.mp hs) i j hi2 hj2 hij

theorem Frame.eq_of_parts (a b : Frame) (h1 : a.dates = b.dates)
    (h2 : a.cols = b.cols) : a = b := by
  cases a
  cases b
  simp_all

theorem sortFrame_idem (f : Frame) : sortFrame (sortFrame f) = sortFrame f := by
  have hlen : (sortFrame f).dates.length = f.dates.length := by
    show ((sortIdx f.dates).map fun i => f.dates.getD i 0).length = f.dates.length
    simp [sortIdx_length]
  have hidx : sortIdx (sortFrame f).dates = List.range f.dates.length := by
    rw [sortIdx_of_sorted _ (sortFrame_dates_sorted f), hlen]
  apply Frame.eq_of_parts
  · show ((sortIdx (sortFrame f).dates).map fun i => (sortFrame f).dates.getD i 0) =
      (sortFrame f).dates
    rw [hidx, ← hlen]
    exact map_getD_range _ 0
  · show ((sortFrame f).cols.map fun p =>
        (p.1, (sortIdx (sortFrame f).dates).map fun i => p.2.getD i FV.nan)) =
      (sortFrame f).cols
    rw [hidx]
    have hid : (sortFrame f).cols = (sortFrame f).cols.map id := (List.map_id _).symm
    conv_rhs => rw [hid]
    apply List.map_congr_left
    intro p hp
    have hq : ∃ q ∈ f.cols,
        p = (q.1, (sortIdx f.dates).map fun i => q.2.getD i FV.nan) := by
      have hp2 : p ∈ f.cols.map fun q =>
          (q.1, (sortIdx f.dates).map fun i => q.2.getD i FV.nan) := hp
      rcases List.mem_map.mp hp2 with ⟨q, hqm, hqe⟩
      exact ⟨q, hqm, hqe.symm⟩
    rcases hq with ⟨q, hqm, rfl⟩
    have hplen : ((sortIdx f.dates).map fun i => q.2.getD i FV.nan).length =
        f.dates.length := by simp [sortIdx_length]
    simp only [id_eq]
    congr 1
    rw [← hplen]
    exact map_getD_range _ FV.nan

theorem compute_eq_error (data : Frame) (inds : List String)
    (h : data.getCol? "Close" = none) :
    compute_technical_indicators data inds =
      Except.error (EngineError.missingColumn "Close") := by
  have h2 : (sortFrame data).getCol? "Close" = none := by
    rw [getCol?_sortFrame, h]
    rfl
  simp only [compute_technical_indicators, h2]

theorem compute_eq_ok (data : Frame) (inds : List String) (close : List FV)
    (h : (sortFrame data).getCol? "Close" = some close) :
    compute_technical_indicators data inds =
      Except.ok (bbBlock inds close (rsiBlock inds close (macdBlock inds close
        (ema50Block inds close (ema10Block inds close (sma50Block inds close
          (sma10Block inds close (sortFrame data)))))))) := by
  simp only [compute_technical_indicators, h]

theorem getCol?_sma10Block (inds : List String) (close : List FV) (f : Frame)
    (nm : String) :
    (sma10Block inds close f).getCol? nm =
      if "SMA(10)" ∈ inds ∧ nm = "SMA10" then some (rollingMean 10 close)
      else f.getCol? nm := by
  unfold sma10Block
  by_cases hi : "SMA(10)" ∈ inds
  · rw [if_pos hi, getCol?_setCol]
    by_cases hn : nm = "SMA10" <;> simp [hn, hi]
  · rw [if_neg hi]
    simp [hi]

theorem getCol?_sma50Block (inds : List String) (close : List FV) (f : Frame)
    (nm : String) :
    (sma50Block inds close f).getCol? nm =
      if "SMA(50)" ∈ inds ∧ nm = "SMA50" then some (rollingMean 50 close)
      else f.getCol? nm := by
  unfold sma50Block
  by_cases hi : "SMA(50)" ∈ inds
  · rw [if_pos hi, getCol?_setCol]
    by_cases hn : nm = "SMA50" <;> simp [hn, hi]
  · rw [if_neg hi]
    simp [hi]

theorem getCol?_ema10Block (inds : List String) (close : List FV) (f : Frame)
    (nm : String) :
    (ema10Block inds close f).getCol? nm =
      if "EMA(10)" ∈ inds ∧ nm = "EMA10" then some (ewm (2 / 11) close)
      else f.getCol? nm := by
  unfold ema10Block
  by_cases hi : "EMA(10)" ∈ inds
  · rw [if_pos hi, getCol?_setCol]
    by_cases hn : nm = "EMA10" <;> simp [hn, hi]
  · rw [if_neg hi]
    simp [hi]

theorem getCol?_ema50Block (inds : List String) (close : List FV) (f : Frame)
    (nm : String) :
    (ema50Block inds close f).getCol? nm =
      if "EMA(50)" ∈ inds ∧ nm = "EMA50" then some (ewm (2 / 51) close)
      else f.getCol? nm := by
  unfold ema50Block
  by_cases hi : "EMA(50)" ∈ inds
  · rw [if_pos hi, getCol?_setCol]
    by_cases hn : nm = "EMA50" <;> simp [hn, hi]
  · rw [if_neg hi]
    simp [hi]

theorem getCol?_macdBlock (inds : List String) (close : List FV) (f : Frame)
    (nm : String) :
    (macdBlock inds close f).getCol? nm =
      if "MACD" ∈ inds ∧ nm = "MACD_Hist" then some (macdHistL close)
      else if "MACD" ∈ inds ∧ nm = "MACD_Signal" then some (macdSignalL close)
      else if "MACD" ∈ inds ∧ nm = "MACD" then some (macdL close)
      else if "MACD" ∈ inds ∧ nm = "EMA26" then some (ewm (2 / 27) close)
      else if "MACD" ∈ inds ∧ nm = "EMA12" then some (ewm (2 / 13) close)
      else f.getCol? nm := by
  unfold macdBlock
  by_cases hi : "MACD" ∈ inds
  · rw [if_pos hi]
    simp only [getCol?_setCol, hi, true_and]
  · rw [if_neg hi]
    simp [hi]

theorem getCol?_rsiBlock (inds : List String) (close : List FV) (f : Frame)
    (nm : String) :
    (rsiBlock inds close f).getCol? nm =
      if "RSI" ∈ inds ∧ nm = "RSI" then some (rsiL close)
      else if "RSI" ∈ inds ∧ nm = "rs" then some (rsL close)
      else if "RSI" ∈ inds ∧ nm = "avg_loss" then some (avgLossL close)
      else if "RSI" ∈ inds ∧ nm = "avg_gain" then some (avgGainL close)
      else if "RSI" ∈ inds ∧ nm = "loss" then some (lossL close)
      else if "RSI" ∈ inds ∧ nm = "gain" then some (gainL close)
      else if "RSI" ∈ inds ∧ nm = "diff" then some (diffL close)
      else f.getCol? nm := by
  unfold rsiBlock
  by_cases hi : "RSI" ∈ inds
  · rw [if_pos hi]
    simp only [getCol?_setCol, hi, true_and]
  · rw [if_neg hi]
    simp [hi]

theorem getCol?_bbBlock (inds : List String) (close : List FV) (f : Frame)
    (nm : String) :
    (bbBlock inds close f).getCol? nm =
      if "Bollinger Bands" ∈ inds ∧ nm = "BB_Lower" then some (bbLowerL close)
      else if "Bollinger Bands" ∈ inds ∧ nm = "BB_Upper" then some (bbUpperL close)
      else if "Bollinger Bands" ∈ inds ∧ nm = "BB_STD" then some (rollingStd 20 close)
      else if "Bollinger Bands" ∈ inds ∧ nm = "BB_MA" then some (rollingMean 20 close)
      else f.getCol? nm := by
  unfold bbBlock
  by_cases hi : "Bollinger Bands" ∈ inds
  · rw [if_pos hi]
    simp only [getCol?_setCol, hi, true_and]
  · rw [if_neg hi]
    simp [hi]

theorem dates_sma10Block (inds : List String) (close : List FV) (f : Frame) :
    (sma10Block inds close f).dates = f.dates := by
  unfold sma10Block
  split <;> simp [dates_setCol]

theorem dates_sma50Block (inds : List String) (close : List FV) (f : Frame) :
    (sma50Block inds close f).dates = f.dates := by
  unfold sma50Block
  split <;> simp [dates_setCol]

theorem dates_ema10Block (inds : List String) (close : List FV) (f : Frame) :
    (ema10Block inds close f).dates = f.dates := by
  unfold ema10Block
  split <;> simp [dates_setCol]

theorem dates_ema50Block (inds : List String) (close : List FV) (f : Frame) :
    (ema50Block inds close f).dates = f.dates := by
  unfold ema50Block
  split <;> simp [dates_setCol]

theorem dates_macdBlock (inds : List String) (close : List FV) (f : Frame) :
    (macdBlock inds close f).dates = f.dates := by
  unfold macdBlock
  split <;> simp [dates_setCol]

theorem dates_rsiBlock (inds : List String) (close : List FV) (f : Frame) :
    (rsiBlock inds close f).dates = f.dates := by
  unfold rsiBlock
  split <;> simp [dates_setCol]

theorem dates_bbBlock (inds : List String) (close : List FV) (f : Frame) :
    (bbBlock inds close f).dates = f.dates := by
  unfold bbBlock
  split <;> simp [dates_setCol]

theorem names_sma10Block (inds : List String) (close : List FV) (f : Frame)
    (nm : String) :
    nm ∈ (sma10Block inds close f).cols.map Prod.fst ↔
      nm ∈ f.cols.map Prod.fst ∨ ("SMA(10)" ∈ inds ∧ nm = "SMA10") := by
  unfold sma10Block
  by_cases hi : "SMA(10)" ∈ inds
  · rw [if_pos hi, names_setCol]
    simp only [hi, true_and]
  · rw [if_neg hi]
    simp [hi]

theorem names_sma50Block (inds : List String) (close : List FV) (f : Frame)
    (nm : String) :
    nm ∈ (sma50Block inds close f).cols.map Prod.fst ↔
      nm ∈ f.cols.map Prod.fst ∨ ("SMA(50)" ∈ inds ∧ nm = "SMA50") := by
  unfold sma50Block
  by_cases hi : "SMA(50)" ∈ inds
  · rw [if_pos hi, names_setCol]
    simp only [hi, true_and]
  · rw [if_neg hi]
    simp [hi]

theorem names_ema10Block (inds : List String) (close : List FV) (f : Frame)
    (nm : String) :
    nm ∈ (ema10Block inds close f).cols.map Prod.fst ↔
      nm ∈ f.cols.map Prod.fst ∨ ("EMA(10)" ∈ inds ∧ nm = "EMA10") := by
  unfold ema10Block
  by_cases hi : "EMA(10)" ∈ inds
  · rw [if_pos hi, names_setCol]
    simp only [hi, true_and]
  · rw [if_neg hi]
    simp [hi]

theorem names_ema50Block (inds : List String) (close : List FV) (f : Frame)
    (nm : String) :
    nm ∈ (ema50Block inds close f).cols.map Prod.fst ↔
      nm ∈ f.cols.map Prod.fst ∨ ("EMA(50)" ∈ inds ∧ nm = "EMA50") := by
  unfold ema50Block
  by_cases hi : "EMA(50)" ∈ inds
  · rw [if_pos hi, names_setCol]
    simp only [hi, true_and]
  · rw [if_neg hi]
    simp [hi]

theorem names_macdBlock (inds : List String) (close : List FV) (f : Frame)
    (nm : String) :
    nm ∈ (macdBlock inds close f).cols.map Prod.fst ↔
      nm ∈ f.cols.map Prod.fst ∨
        ("MACD" ∈ inds ∧ (nm = "EMA12" ∨ nm = "EMA26" ∨ nm = "MACD" ∨
          nm = "MACD_Signal" ∨ nm = "MACD_Hist")) := by
  unfold macdBlock
  by_cases hi : "MACD" ∈ inds
  · rw [if_pos hi, names_setCol, names_setCol, names_setCol, names_setCol, names_setCol]
    simp only [hi, true_and]
    tauto
  · rw [if_neg hi]
    simp [hi]

theorem names_rsiBlock (inds : List String) (close : List FV) (f : Frame)
    (nm : String) :
    nm ∈ (rsiBlock inds close f).cols.map Prod.fst ↔
      nm ∈ f.cols.map Prod.fst ∨
        ("RSI" ∈ inds ∧ (nm = "diff" ∨ nm = "gain" ∨ nm = "loss" ∨
          nm = "avg_gain" ∨ nm = "avg_loss" ∨ nm = "rs" ∨ nm = "RSI")) := by
  unfold rsiBlock
  by_cases hi : "RSI" ∈ inds
  · rw [if_pos hi, names_setCol, names_setCol, names_setCol, names_setCol, names_setCol, names_setCol, names_setCol]
    simp only [hi, true_and]
    tauto
  · rw [if_neg hi]
    simp [hi]

theorem names_bbBlock (inds : List String) (close : List FV) (f : Frame)
    (nm : String) :
    nm ∈ (bbBlock inds close f).cols.map Prod.fst ↔
      nm ∈ f.cols.map Prod.fst ∨
        ("Bollinger Bands" ∈ inds ∧ (nm = "BB_MA" ∨ nm = "BB_STD" ∨
          nm = "BB_Upper" ∨ nm = "BB_Lower")) := by
  unfold bbBlock
  by_cases hi : "Bollinger Bands" ∈ inds
  · rw [if_pos hi, names_setCol, names_setCol, names_setCol, names_setCol]
    simp only [hi, true_and]
    tauto
  · rw [if_neg hi]
    simp [hi]

theorem FV.nan_div (x : FV) : FV.div FV.nan x = FV.nan := by cases x <;> rfl

theorem FV.div_nan (x : FV) : FV.div x FV.nan = FV.nan := by cases x <;> rfl

theorem getD_range_map {α : Type} (m : ℕ) (g : ℕ → α) (i : ℕ) (h : i < m)
    (d : α) :
    ((List.range m).map g).getD i d = g i := by
  have hl : i < ((List.range m).map g).length := by simpa
  rw [List.getD_eq_getElem _ _ hl]
  simp

theorem getD_map {α β : Type} (f : α → β) (l : List α) (i : ℕ)
    (h : i < l.length) (d : β) (d0 : α) :
    (l.map f).getD i d = f (l.getD i d0) := by
  have hl : i < (l.map f).length := by simpa
  rw [List.getD_eq_getElem _ _ hl, List.getD_eq_getElem _ _ h]
  simp

theorem getD_zipWith {α : Type} (g : α → α → α) (as bs : List α) (i : ℕ)
    (ha : i < as.length) (hb : i < bs.length) (d : α) :
    (List.zipWith g as bs).getD i d = g (as.getD i d) (bs.getD i d) := by
  have hl : i < (List.zipWith g as bs).length := by
    simp only [List.length_zipWith, lt_min_iff]
    exact ⟨ha, hb⟩
  rw [List.getD_eq_getElem _ _ hl, List.getD_eq_getElem _ _ ha,
    List.getD_eq_getElem _ _ hb]
  exact List.getElem_zipWith

theorem gainQ_length (cs : List ℚ) : (gainQ cs).length = cs.length := by
  simp [gainQ]

theorem lossQ_length (cs : List ℚ) : (lossQ cs).length = cs.length := by
  simp [lossQ]

theorem gainQ_getD (cs : List ℚ) (i : ℕ) (h : i < cs.length) :
    (gainQ cs).getD i 0 =
      if i = 0 then 0
      else if 0 < cs.getD i 0 - cs.getD (i - 1) 0 then cs.getD i 0 - cs.getD (i - 1) 0
      else 0 := by
  rw [gainQ, getD_range_map _ _ _ h]

theorem lossQ_getD (cs : List ℚ) (i : ℕ) (h : i < cs.length) :
    (lossQ cs).getD i 0 =
      if i = 0 then 0
      else if cs.getD i 0 - cs.getD (i - 1) 0 < 0 then -(cs.getD i 0 - cs.getD (i - 1) 0)
      else 0 := by
  rw [lossQ, getD_range_map _ _ _ h]

theorem gainQ_nonneg (cs : List ℚ) : ∀ x ∈ gainQ cs, 0 ≤ x := by
  intro x hx
  rcases List.mem_map.mp hx with ⟨i, _, rfl⟩
  split_ifs with h1 h2
  · exact le_rfl
  · exact le_of_lt h2
  · exact le_rfl

theorem lossQ_nonneg (cs : List ℚ) : ∀ x ∈ lossQ cs, 0 ≤ x := by
  intro x hx
  rcases List.mem_map.mp hx with ⟨i, _, rfl⟩
  split_ifs with h1 h2
  · exact le_rfl
  · linarith
  · exact le_rfl

theorem gainMap_val (q : ℚ) :
    gainMap (FV.val q) = FV.val (if 0 < q then q else 0) := by
  by_cases h : 0 < q <;> simp [gainMap, FV.gtZero, h]

theorem lossMap_val (q : ℚ) :
    lossMap (FV.val q) = FV.val (if q < 0 then -q else 0) := by
  by_cases h : q < 0 <;> simp [lossMap, FV.ltZero, FV.neg, h]

theorem gainMap_nan : gainMap FV.nan = FV.val 0 := rfl

theorem lossMap_nan : lossMap FV.nan = FV.val 0 := rfl

theorem gainL_length (xs : List FV) : (gainL xs).length = xs.length := by
  simp [gainL, diffL_length]

theorem lossL_length (xs : List FV) : (lossL xs).length = xs.length := by
  simp [lossL, diffL_length]

theorem avgGainL_length (xs : List FV) : (avgGainL xs).length = xs.length := by
  simp [avgGainL, rollingMean_length, gainL_length]

theorem avgLossL_length (xs : List FV) : (avgLossL xs).length = xs.length := by
  simp [avgLossL, rollingMean_length, lossL_length]

theorem rsL_length (xs : List FV) : (rsL xs).length = xs.length := by
  simp [rsL, List.length_zipWith, avgGainL_length, avgLossL_length]

theorem rsiL_length (xs : List FV) : (rsiL xs).length = xs.length := by
  simp [rsiL, rsL_length]

theorem gainL_eq (cs : List ℚ) :
    gainL (cs.map FV.val) = (gainQ cs).map FV.val := by
  apply List.ext_getElem
  · simp [gainL_length, gainQ_length]
  · intro i h1 h2
    have hi : i < cs.length := by simpa [gainL_length] using h1
    rw [← List.getD_eq_getElem _ FV.nan h1, ← List.getD_eq_getElem _ FV.nan h2]
    rw [gainL, getD_map gainMap _ _ (by simpa [diffL_length]) FV.nan FV.nan,
      diffL_map_val _ _ hi, getD_map FV.val _ _ (by simpa [gainQ_length]) FV.nan 0,
      gainQ_getD _ _ hi]
    by_cases h0 : i = 0
    · simp [h0, gainMap_nan]
    · simp only [h0, if_false]
      rw [gainMap_val]

theorem lossL_eq (cs : List ℚ) :
    lossL (cs.map FV.val) = (lossQ cs).map FV.val := by
  apply List.ext_getElem
  · simp [lossL_length, lossQ_length]
  · intro i h1 h2
    have hi : i < cs.length := by simpa [lossL_length] using h1
    rw [← List.getD_eq_getElem _ FV.nan h1, ← List.getD_eq_getElem _ FV.nan h2]
    rw [lossL, getD_map lossMap _ _ (by simpa [diffL_length]) FV.nan FV.nan,
      diffL_map_val _ _ hi, getD_map FV.val _ _ (by simpa [lossQ_length]) FV.nan 0,
      lossQ_getD _ _ hi]
    by_cases h0 : i = 0
    · simp [h0, lossMap_nan]
    · simp only [h0, if_false]
      rw [lossMap_val]

theorem avgGainL_getD (cs : List ℚ) (i : ℕ) (h : i < cs.length) :
    (avgGainL (cs.map FV.val)).getD i FV.nan =
      if i + 1 < 14 then FV.nan else FV.val (avgGainQ cs i) := by
  rw [avgGainL, gainL_eq,
    rollingMean_map_val 14 (gainQ cs) i (by simpa [gainQ_length]) FV.nan]
  simp [avgGainQ]

theorem avgLossL_getD (cs : List ℚ) (i : ℕ) (h : i < cs.length) :
    (avgLossL (cs.map FV.val)).getD i FV.nan =
      if i + 1 < 14 then FV.nan else FV.val (avgLossQ cs i) := by
  rw [avgLossL, lossL_eq,
    rollingMean_map_val 14 (lossQ cs) i (by simpa [lossQ_length]) FV.nan]
  simp [avgLossQ]

theorem rsL_getD (cs : List ℚ) (i : ℕ) (h : i < cs.length) :
    (rsL (cs.map FV.val)).getD i FV.nan =
      if i + 1 < 14 then FV.nan
      else FV.div (FV.val (avgGainQ cs i)) (FV.val (avgLossQ cs i)) := by
  rw [rsL, getD_zipWith _ _ _ _ (by simpa [avgGainL_length])
    (by simpa [avgLossL_length]) FV.nan, avgGainL_getD _ _ h, avgLossL_getD _ _ h]
  by_cases h14 : i + 1 < 14 <;> simp [h14, FV.nan_div]

theorem rsiOf_val (g l : ℚ) (hg : 0 ≤ g) (hl : 0 ≤ l) :
    FV.sub (FV.val 100)
      (FV.div (FV.val 100) (FV.add (FV.val 1) (FV.div (FV.val g) (FV.val l)))) =
      if l = 0 then (if g = 0 then FV.nan else FV.val 100)
      else FV.val (100 - 100 / (1 + g / l)) := by
  by_cases hl0 : l = 0
  · subst hl0
    by_cases hg0 : g = 0
    · subst hg0
      simp [FV.div, FV.add_nan, FV.sub_any_nan]
    · have hgpos : 0 < g := lt_of_le_of_ne hg (Ne.symm hg0)
      have h1 : FV.div (FV.val g) (FV.val 0) = FV.pinf := by
        simp [FV.div, hg0, hgpos]
      rw [h1]
      have h2 : FV.add (FV.val 1) FV.pinf = FV.pinf := rfl
      have h3 : FV.div (FV.val 100) FV.pinf = FV.val 0 := rfl
      rw [h2, h3, FV.sub_val_val, if_neg hg0]
      norm_num
  · have hlpos : 0 < l := lt_of_le_of_ne hl (Ne.symm hl0)
    have h1 : FV.div (FV.val g) (FV.val l) = FV.val (g / l) := by
      simp [FV.div, hl0]
    have h2 : (1 : ℚ) + g / l ≠ 0 := by
      have : 0 ≤ g / l := div_nonneg hg hl
      positivity
    rw [h1, FV.add_val_val]
    have h3 : FV.div (FV.val 100) (FV.val (1 + g / l)) =
        FV.val (100 / (1 + g / l)) := by
      simp [FV.div, h2]
    rw [h3, FV.sub_val_val, if_neg hl0]

theorem rsiL_getD (cs : List ℚ) (i : ℕ) (h : i < cs.length) :
    (rsiL (cs.map FV.val)).getD i FV.nan =
      if i + 1 < 14 then FV.nan
      else if avgLossQ cs i = 0 then
        (if avgGainQ cs i = 0 then FV.nan else FV.val 100)
      else FV.val (100 - 100 / (1 + avgGainQ cs i / avgLossQ cs i)) := by
  have hg : 0 ≤ avgGainQ cs i := by
    apply div_nonneg _ (by norm_num)
    apply List.sum_nonneg
    intro x hx
    exact gainQ_nonneg cs x (List.drop_subset _ _ (List.take_subset _ _ hx))
  have hl : 0 ≤ avgLossQ cs i := by
    apply div_nonneg _ (by norm_num)
    apply List.sum_nonneg
    intro x hx
    exact lossQ_nonneg cs x (List.drop_subset _ _ (List.take_subset _ _ hx))
  rw [rsiL, getD_map _ _ _ (by simpa [rsL_length]) FV.nan FV.nan, rsL_getD _ _ h]
  by_cases h14 : i + 1 < 14
  · simp [h14, FV.add_nan, FV.div_nan, FV.sub_any_nan]
  · simp only [h14, if_false]
    exact rsiOf_val _ _ hg hl

theorem FV.add_val_irr (d a b c : ℚ) :
    FV.add (FV.val d) (FV.irr a b c) = FV.irr (a + d) b c := rfl

theorem FV.sub_val_irr (d a b c : ℚ) :
    FV.sub (FV.val d) (FV.irr a b c) = FV.irr (-a + d) (-b) c := rfl

theorem FV.smul_irr (q a b c : ℚ) (h : q ≠ 0) :
    FV.smul q (FV.irr a b c) = FV.irr (q * a) (q * b) c := by
  simp [FV.smul, h]

theorem bbUpperL_getD (cs : List ℚ) (i : ℕ) (h : i < cs.length) :
    (bbUpperL (cs.map FV.val)).getD i FV.nan =
      if i + 1 < 20 then FV.nan
      else FV.irr ((windowQ 20 cs i).sum / 20) 2 (sampleVar (windowQ 20 cs i)) := by
  rw [bbUpperL, getD_zipWith _ _ _ _ (by simpa [rollingMean_length])
    (by simpa [rollingStd_length]) FV.nan,
    rollingMean_map_val 20 cs i h FV.nan,
    getD_map (FV.smul 2) _ _ (by simpa [rollingStd_length]) FV.nan FV.nan,
    rollingStd_map_val 20 cs i h FV.nan]
  by_cases h20 : i + 1 < 20
  · simp [h20, FV.smul_nan, FV.add_nan]
  · simp only [h20, if_false]
    rw [FV.smul_irr 2 0 1 _ (by norm_num), FV.add_val_irr]
    norm_num

theorem bbLowerL_getD (cs : List ℚ) (i : ℕ) (h : i < cs.length) :
    (bbLowerL (cs.map FV.val)).getD i FV.nan =
      if i + 1 < 20 then FV.nan
      else FV.irr ((windowQ 20 cs i).sum / 20) (-2) (sampleVar (windowQ 20 cs i)) := by
  rw [bbLowerL, getD_zipWith _ _ _ _ (by simpa [rollingMean_length])
    (by simpa [rollingStd_length]) FV.nan,
    rollingMean_map_val 20 cs i h FV.nan,
    getD_map (FV.smul 2) _ _ (by simpa [rollingStd_length]) FV.nan FV.nan,
    rollingStd_map_val 20 cs i h FV.nan]
  by_cases h20 : i + 1 < 20
  · simp [h20, FV.smul_nan, FV.sub_any_nan]
  · simp only [h20, if_false]
    rw [FV.smul_irr 2 0 1 _ (by norm_num), FV.sub_val_irr]
    norm_num

theorem windowQ_getD (n : ℕ) (cs : List ℚ) (i j : ℕ) (hn : n ≤ i + 1)
    (hi : i < cs.length) (hj : j < n) :
    (windowQ n cs i).getD j 0 = cs.getD (i + 1 - n + j) 0 := by
  have hlen := windowQ_length n cs i hn hi
  have hjl : j < (windowQ n cs i).length := by omega
  rw [List.getD_eq_getElem _ _ hjl]
  have hb : i + 1 - n + j < cs.length := by omega
  rw [List.getD_eq_getElem _ _ hb]
  simp [windowQ, List.getElem_take, List.getElem_drop]

theorem windowQ_subset (n : ℕ) (cs : List ℚ) (i : ℕ) (x : ℚ)
    (hx : x ∈ windowQ n cs i) : x ∈ cs :=
  List.drop_subset _ _ (List.take_subset _ _ hx)

theorem sum_pos_of_mem_pos (l : List ℚ) :
    (∀ x ∈ l, 0 ≤ x) → ∀ y, y ∈ l → 0 < y → 0 < l.sum := by
  induction l with
  | nil => intro _ y hy; simp at hy
  | cons a rest ih =>
      intro hpos y hy hy0
      rw [List.sum_cons]
      rcases List.mem_cons.mp hy with rfl | hmem
      · have h2 : 0 ≤ rest.sum :=
          List.sum_nonneg fun x hx => hpos x (List.mem_cons_of_mem _ hx)
        linarith
      · have ha : 0 ≤ a := hpos a (List.mem_cons_self _ _)
        have h2 := ih (fun x hx => hpos x (List.mem_cons_of_mem _ hx)) y hmem hy0
        linarith

theorem zipWith_sub_map_val (xs ys : List ℚ) :
    List.zipWith FV.sub (xs.map FV.val) (ys.map FV.val) =
      (List.zipWith (fun a b => a - b) xs ys).map FV.val := by
  induction xs generalizing ys with
  | nil => simp
  | cons x xs ih =>
      cases ys with
      | nil => simp
      | cons y ys => simp [FV.sub_val_val, ih]

theorem macdL_eq (cs : List ℚ) :
    macdL (cs.map FV.val) = (macdQ cs).map FV.val := by
  rw [macdL, macdQ, ewm_map_val, ewm_map_val, zipWith_sub_map_val]

theorem macdSignalL_eq (cs : List ℚ) :
    macdSignalL (cs.map FV.val) = (emaQ (2 / 10) (macdQ cs)).map FV.val := by
  rw [macdSignalL, macdL_eq, ewm_map_val]

theorem macdHistL_eq (cs : List ℚ) :
    macdHistL (cs.map FV.val) =
      (List.zipWith (fun a b => a - b) (macdQ cs)
        (emaQ (2 / 10) (macdQ cs))).map FV.val := by
  rw [macdHistL, macdL_eq, macdSignalL_eq, zipWith_sub_map_val]

theorem macdQ_length (cs : List ℚ) : (macdQ cs).length = cs.length := by
  simp [macdQ, List.length_zipWith, emaQ_length]

theorem sortFrame_eq_self (f : Frame)
    (hs : List.Pairwise (fun a b : ℤ => a ≤ b) f.dates)
    (hc : ∀ p ∈ f.cols, p.2.length = f.dates.length) :
    sortFrame f = f := by
  have hidx : sortIdx f.dates = List.range f.dates.length :=
    sortIdx_of_sorted f.dates hs
  apply Frame.eq_of_parts
  · show ((sortIdx f.dates).map fun i => f.dates.getD i 0) = f.dates
    rw [hidx]
    exact map_getD_range _ 0
  · show (f.cols.map fun p =>
      (p.1, (sortIdx f.dates).map fun i => p.2.getD i FV.nan)) = f.cols
    rw [hidx]
    have hid : f.cols = f.cols.map id := (List.map_id _).symm
    conv_rhs => rw [hid]
    apply List.map_congr_left
    intro p hp
    have hql := hc p hp
    simp only [id_eq]
    have : (List.range f.dates.length).map (fun i => p.2.getD i FV.nan) = p.2 := by
      rw [← hql]
      exact map_getD_range _ FV.nan
    rw [this]

theorem getD_replicate {α : Type} (n : ℕ) (a : α) (i : ℕ) (h : i < n) (d : α) :
    (List.replicate n a).getD i d = a := by
  rw [List.getD_eq_getElem _ _ (by simpa)]
  simp

theorem gainQ_replicate_zero (n : ℕ) (q : ℚ) :
    ∀ x ∈ gainQ (List.replicate n q), x = 0 := by
  intro x hx
  rcases List.mem_map.mp hx with ⟨j, hjr, rfl⟩
  have hj : j < n := by simpa using List.mem_range.mp hjr
  by_cases h0 : j = 0
  · simp [h0]
  · have hj1 : j - 1 < n := by omega
    rw [if_neg h0, getD_replicate n q j hj 0, getD_replicate n q (j - 1) hj1 0]
    norm_num

theorem lossQ_replicate_zero (n : ℕ) (q : ℚ) :
    ∀ x ∈ lossQ (List.replicate n q), x = 0 := by
  intro x hx
  rcases List.mem_map.mp hx with ⟨j, hjr, rfl⟩
  have hj : j < n := by simpa using List.mem_range.mp hjr
  by_cases h0 : j = 0
  · simp [h0]
  · have hj1 : j - 1 < n := by omega
    rw [if_neg h0, getD_replicate n q j hj 0, getD_replicate n q (j - 1) hj1 0]
    norm_num

theorem avgGainQ_replicate (n : ℕ) (q : ℚ) (i : ℕ) :
    avgGainQ (List.replicate n q) i = 0 := by
  unfold avgGainQ
  rw [List.sum_eq_zero]
  · norm_num
  · intro x hx
    exact gainQ_replicate_zero n q x (windowQ_subset _ _ _ x hx)

theorem avgLossQ_replicate (n : ℕ) (q : ℚ) (i : ℕ) :
    avgLossQ (List.replicate n q) i = 0 := by
  unfold avgLossQ
  rw [List.sum_eq_zero]
  · norm_num
  · intro x hx
    exact lossQ_replicate_zero n q x (windowQ_subset _ _ _ x hx)

theorem sampleVar_nonneg (ws : List ℚ) (h : 1 < ws.length) :
    0 ≤ sampleVar ws := by
  unfold sampleVar
  apply div_nonneg
  · apply List.sum_nonneg
    intro x hx
    rcases List.mem_map.mp hx with ⟨y, _, rfl⟩
    positivity
  · have h2 : (1 : ℚ) < ws.length := by exact_mod_cast h
    linarith

theorem interpR_val (q : ℚ) : (FV.val q).interpR = some ((q : ℝ)) := rfl

theorem interpR_irr (a b c : ℚ) :
    (FV.irr a b c).interpR =
      some ((a : ℝ) + (b : ℝ) * Real.sqrt ((c : ℝ))) := rfl

theorem colAt_eq (e : Except EngineError Frame) (out : Frame) (nm : String)
    (c : List FV) (he : e = Except.ok out) (hc : out.getCol? nm = some c)
    (i : ℕ) :
    colAt (outOf e) nm i = c.getD i FV.nan := by
  rw [colAt, he]
  show ((out.getCol? nm).getD []).getD i FV.nan = c.getD i FV.nan
  rw [hc]
  rfl

/-- C1: for every input series with a Close column and every requested
set, whenever SMA(n) is requested for n = 10 or n = 50 the output column
SMAn at position i (in timestamp order) is NaN for i < n-1 and equals the
arithmetic mean of the n close prices ending at i inclusive for i ≥ n-1.
The scenario with closes 10..20 and SMA(10) requested alone is
instantiated in the witness. -/
theorem sma_mean_spec (data : Frame) (inds : List String) (cs : List ℚ)
    (hclose : (sortFrame data).getCol? "Close" = some (cs.map FV.val)) :
    ∃ out, compute_technical_indicators data inds = Except.ok out ∧
      ("SMA(10)" ∈ inds → ∃ s10, out.getCol? "SMA10" = some s10 ∧
        s10.length = cs.length ∧
        (∀ i, i < cs.length → i < 9 → s10.getD i FV.nan = FV.nan) ∧
        (∀ i, i < cs.length → 9 ≤ i →
          (windowQ 10 cs i).length = 10 ∧
          s10.getD i FV.nan = FV.val ((windowQ 10 cs i).sum / 10))) ∧
      ("SMA(50)" ∈ inds → ∃ s50, out.getCol? "SMA50" = some s50 ∧
        s50.length = cs.length ∧
        (∀ i, i < cs.length → i < 49 → s50.getD i FV.nan = FV.nan) ∧
        (∀ i, i < cs.length → 49 ≤ i →
          (windowQ 50 cs i).length = 50 ∧
          s50.getD i FV.nan = FV.val ((windowQ 50 cs i).sum / 50))) := by
  refine ⟨_, compute_eq_ok data inds _ hclose, ?_, ?_⟩
  · intro h10
    refine ⟨rollingMean 10 (cs.map FV.val), ?_,
      by simp [rollingMean_length], ?_, ?_⟩
    · simp [getCol?_bbBlock, getCol?_rsiBlock, getCol?_macdBlock,
        getCol?_ema50Block, getCol?_ema10Block, getCol?_sma50Block,
        getCol?_sma10Block, h10]
    · intro i hi h9
      rw [rollingMean_map_val 10 cs i hi FV.nan, if_pos (by omega)]
    · intro i hi h9
      refine ⟨windowQ_length 10 cs i (by omega) hi, ?_⟩
      rw [rollingMean_map_val 10 cs i hi FV.nan, if_neg (by omega)]
      norm_num
  · intro h50
    refine ⟨rollingMean 50 (cs.map FV.val), ?_,
      by simp [rollingMean_length], ?_, ?_⟩
    · simp [getCol?_bbBlock, getCol?_rsiBlock, getCol?_macdBlock,
        getCol?_ema50Block, getCol?_ema10Block, getCol?_sma50Block,
        getCol?_sma10Block, h50]
    · intro i hi h49
      rw [rollingMean_map_val 50 cs i hi FV.nan, if_pos (by omega)]
    · intro i hi h49
      refine ⟨windowQ_length 50 cs i (by omega) hi, ?_⟩
      rw [rollingMean_map_val 50 cs i hi FV.nan, if_neg (by omega)]
      norm_num

/-- Witness for C1: the specification scenario, closes 10..20 with SMA(10)
requested alone; SMA10 is NaN at row 3, 14.5 at row 9 and 15.5 at row 10;
with SMA(50) requested alone row 10 of the 11-row series is NaN. -/
theorem sma_mean_spec_witness :
    colAt (outOf (compute_technical_indicators frameA ["SMA(10)"]))
        "SMA10" 3 = FV.nan ∧
    colAt (outOf (compute_technical_indicators frameA ["SMA(10)"]))
        "SMA10" 9 = FV.val (29 / 2) ∧
    colAt (outOf (compute_technical_indicators frameA ["SMA(10)"]))
        "SMA10" 10 = FV.val (31 / 2) ∧
    colAt (outOf (compute_technical_indicators frameA ["SMA(50)"]))
        "SMA50" 10 = FV.nan := by
  have hclose : (sortFrame frameA).getCol? "Close" = some (closesA.map FV.val) := by
    rw [sortFrame_eq_self frameA (by decide) (by decide)]
    rfl
  obtain ⟨out, hok, hs10, _⟩ := sma_mean_spec frameA ["SMA(10)"] closesA hclose
  obtain ⟨s10, hc10, hl10, hnan, hval⟩ := hs10 (by simp)
  obtain ⟨out2, hok2, _, hs50⟩ := sma_mean_spec frameA ["SMA(50)"] closesA hclose
  obtain ⟨s50, hc50, hl50, hnan50, _⟩ := hs50 (by simp)
  have hlen : closesA.length = 11 := by rfl
  refine ⟨?_, ?_, ?_, ?_⟩
  · rw [colAt_eq _ _ _ _ hok hc10 3, hnan 3 (by rw [hlen]; omega) (by omega)]
  · rw [colAt_eq _ _ _ _ hok hc10 9,
      (hval 9 (by rw [hlen]; omega) (by omega)).2]
    norm_num [windowQ, closesA]
  · rw [colAt_eq _ _ _ _ hok hc10 10,
      (hval 10 (by rw [hlen]; omega) (by omega)).2]
    norm_num [windowQ, closesA]
  · rw [colAt_eq _ _ _ _ hok2 hc50 10,
      hnan50 10 (by rw [hlen]; omega) (by omega)]

/-- C2: for every input series with a Close column and every requested
set, whenever EMA(n) is requested for n = 10 or n = 50 the output column
EMAn satisfies, in timestamp order, EMAn[0] = close[0] (the recursion is
seeded by the first close value, not a simple-average seed) and
EMAn[i] = close[i]·α + EMAn[i-1]·(1-α) with α = 2/(n+1), so 2/11 and 9/11
for n = 10 and 2/51 and 49/51 for n = 50. -/
theorem ema_recursive_spec (data : Frame) (inds : List String) (cs : List ℚ)
    (hclose : (sortFrame data).getCol? "Close" = some (cs.map FV.val)) :
    ∃ out, compute_technical_indicators data inds = Except.ok out ∧
      ("EMA(10)" ∈ inds → ∃ e10, out.getCol? "EMA10" = some e10 ∧
        e10.length = cs.length ∧
        (0 < cs.length → e10.getD 0 FV.nan = FV.val (cs.getD 0 0)) ∧
        (∀ i p, i + 1 < cs.length → e10.getD i FV.nan = FV.val p →
          e10.getD (i + 1) FV.nan =
            FV.val (cs.getD (i + 1) 0 * (2 / 11) + p * (9 / 11)))) ∧
      ("EMA(50)" ∈ inds → ∃ e50, out.getCol? "EMA50" = some e50 ∧
        e50.length = cs.length ∧
        (0 < cs.length → e50.getD 0 FV.nan = FV.val (cs.getD 0 0)) ∧
        (∀ i p, i + 1 < cs.length → e50.getD i FV.nan = FV.val p →
          e50.getD (i + 1) FV.nan =
            FV.val (cs.getD (i + 1) 0 * (2 / 51) + p * (49 / 51)))) := by
  refine ⟨_, compute_eq_ok data inds _ hclose, ?_, ?_⟩
  · intro h10
    refine ⟨ewm (2 / 11) (cs.map FV.val), ?_, by simp [ewm_length], ?_, ?_⟩
    · simp [getCol?_bbBlock, getCol?_rsiBlock, getCol?_macdBlock,
        getCol?_ema50Block, getCol?_ema10Block, getCol?_sma50Block,
        getCol?_sma10Block, h10]
    · intro hpos
      rw [ewm_map_val, getD_map FV.val _ _ (by simpa [emaQ_length]) FV.nan 0,
        emaQ_getD_zero _ _ hpos]
    · intro i p hi hp
      have hi0 : i < cs.length := by omega
      rw [ewm_map_val,
        getD_map FV.val _ _ (by simpa [emaQ_length] using hi0) FV.nan 0] at hp
      have hpe : (emaQ (2 / 11) cs).getD i 0 = p := by simpa using hp
      rw [ewm_map_val,
        getD_map FV.val _ _ (by simpa [emaQ_length] using hi) FV.nan 0,
        emaQ_getD_succ _ _ _ hi, hpe]
      norm_num
  · intro h50
    refine ⟨ewm (2 / 51) (cs.map FV.val), ?_, by simp [ewm_length], ?_, ?_⟩
    · simp [getCol?_bbBlock, getCol?_rsiBlock, getCol?_macdBlock,
        getCol?_ema50Block, getCol?_ema10Block, getCol?_sma50Block,
        getCol?_sma10Block, h50]
    · intro hpos
      rw [ewm_map_val, getD_map FV.val _ _ (by simpa [emaQ_length]) FV.nan 0,
        emaQ_getD_zero _ _ hpos]
    · intro i p hi hp
      have hi0 : i < cs.length := by omega
      rw [ewm_map_val,
        getD_map FV.val _ _ (by simpa [emaQ_length] using hi0) FV.nan 0] at hp
      have hpe : (emaQ (2 / 51) cs).getD i 0 = p := by simpa using hp
      rw [ewm_map_val,
        getD_map FV.val _ _ (by simpa [emaQ_length] using hi) FV.nan 0,
        emaQ_getD_succ _ _ _ hi, hpe]
      norm_num

/-- Witness for C2: two rows with closes 4 and 15, each EMA variant
requested alone; EMA10 is seeded with 4 and EMA10[1] = 15·(2/11) +
4·(9/11) = 6, and EMA50 is seeded with 4. -/
theorem ema_recursive_spec_witness :
    colAt (outOf (compute_technical_indicators frameF ["EMA(10)"]))
        "EMA10" 0 = FV.val 4 ∧
    colAt (outOf (compute_technical_indicators frameF ["EMA(10)"]))
        "EMA10" 1 = FV.val 6 ∧
    colAt (outOf (compute_technical_indicators frameF ["EMA(50)"]))
        "EMA50" 0 = FV.val 4 := by
  have hclose : (sortFrame frameF).getCol? "Close" =
      some (([4, 15] : List ℚ).map FV.val) := by
    rw [sortFrame_eq_self frameF (by decide) (by decide)]
    rfl
  obtain ⟨out, hok, h10c, _⟩ :=
    ema_recursive_spec frameF ["EMA(10)"] [4, 15] hclose
  obtain ⟨e10, hc10, hl10, hseed10, hrec10⟩ := h10c (by simp)
  obtain ⟨out2, hok2, _, h50c⟩ :=
    ema_recursive_spec frameF ["EMA(50)"] [4, 15] hclose
  obtain ⟨e50, hc50, hl50, hseed50, _⟩ := h50c (by simp)
  refine ⟨?_, ?_, ?_⟩
  · rw [colAt_eq _ _ _ _ hok hc10 0, hseed10 (by norm_num)]
    norm_num
  · rw [colAt_eq _ _ _ _ hok hc10 1,
      hrec10 0 4 (by norm_num) (by rw [hseed10 (by norm_num)]; norm_num)]
    norm_num
  · rw [colAt_eq _ _ _ _ hok2 hc50 0, hseed50 (by norm_num)]
    norm_num

/-- C3: wherever the 14-period rolling averages of gain and loss are both
defined (rows 13 and later), the RSI cell follows the zero-denominator
rule: avg_loss = 0 with avg_gain > 0 gives RSI = 100, and avg_loss = 0
with avg_gain = 0 gives NaN; in particular on a strictly increasing close
series RSI equals 100 at every row from 13 on. -/
theorem rsi_zero_denominator_spec (data : Frame) (inds : List String)
    (cs : List ℚ)
    (hclose : (sortFrame data).getCol? "Close" = some (cs.map FV.val))
    (hrsi : "RSI" ∈ inds) :
    ∃ out, compute_technical_indicators data inds = Except.ok out ∧
      ∃ r, out.getCol? "RSI" = some r ∧ r.length = cs.length ∧
        (∀ i, 13 ≤ i → i < cs.length →
          (avgLossQ cs i = 0 → 0 < avgGainQ cs i →
            r.getD i FV.nan = FV.val 100) ∧
          (avgLossQ cs i = 0 → avgGainQ cs i = 0 →
            r.getD i FV.nan = FV.nan)) ∧
        ((∀ j, j + 1 < cs.length → cs.getD j 0 < cs.getD (j + 1) 0) →
          ∀ i, 13 ≤ i → i < cs.length → r.getD i FV.nan = FV.val 100) := by
  refine ⟨_, compute_eq_ok data inds _ hclose, rsiL (cs.map FV.val),
    ?_, ?_, ?_, ?_⟩
  · simp [getCol?_bbBlock, getCol?_rsiBlock, hrsi]
  · simp [rsiL_length]
  · intro i h13 hi
    constructor
    · intro hl hg
      rw [rsiL_getD cs i hi, if_neg (by omega), if_pos hl, if_neg (ne_of_gt hg)]
    · intro hl hg
      rw [rsiL_getD cs i hi, if_neg (by omega), if_pos hl, if_pos hg]
  · intro hmono i h13 hi
    have hloss : avgLossQ cs i = 0 := by
      unfold avgLossQ
      rw [List.sum_eq_zero]
      · norm_num
      · intro x hx
        have hx2 := windowQ_subset _ _ _ x hx
        rcases List.mem_map.mp hx2 with ⟨j, hjr, rfl⟩
        have hj : j < cs.length := by simpa using List.mem_range.mp hjr
        by_cases h0 : j = 0
        · simp [h0]
        · have hj1 : j - 1 + 1 = j := by omega
          have hlt : cs.getD (j - 1) 0 < cs.getD j 0 := by
            have := hmono (j - 1) (by omega)
            rwa [hj1] at this
          rw [if_neg h0, if_neg (by linarith)]
    have hwlen : (windowQ 14 (gainQ cs) i).length = 14 :=
      windowQ_length 14 (gainQ cs) i (by omega) (by simp [gainQ_length]; omega)
    have hmem : (gainQ cs).getD i 0 ∈ windowQ 14 (gainQ cs) i := by
      have h1 : (windowQ 14 (gainQ cs) i).getD 13 0 =
          (gainQ cs).getD (i + 1 - 14 + 13) 0 :=
        windowQ_getD 14 (gainQ cs) i 13 (by omega)
          (by simp [gainQ_length]; omega) (by omega)
      have h2 : i + 1 - 14 + 13 = i := by omega
      rw [h2] at h1
      rw [← h1, List.getD_eq_getElem _ _ (by omega)]
      exact List.getElem_mem _
    have hgposval : 0 < (gainQ cs).getD i 0 := by
      rw [gainQ_getD cs i hi, if_neg (by omega)]
      have hj1 : i - 1 + 1 = i := by omega
      have hlt : cs.getD (i - 1) 0 < cs.getD i 0 := by
        have := hmono (i - 1) (by omega)
        rwa [hj1] at this
      rw [if_pos (by linarith)]
      linarith
    have hsum : 0 < (windowQ 14 (gainQ cs) i).sum :=
      sum_pos_of_mem_pos _
        (fun x hx => gainQ_nonneg cs x (windowQ_subset _ _ _ x hx))
        _ hmem hgposval
    have hgain : 0 < avgGainQ cs i := by
      unfold avgGainQ
      exact div_pos hsum (by norm_num)
    rw [rsiL_getD cs i hi, if_neg (by omega), if_pos hloss,
      if_neg (ne_of_gt hgain)]

/-- Witness for C3: strictly increasing closes 0..14 give RSI = 100 at
rows 13 and 14. -/
theorem rsi_zero_denominator_spec_witness :
    colAt (outOf (compute_technical_indicators frameE ["RSI"])) "RSI" 13 =
      FV.val 100 ∧
    colAt (outOf (compute_technical_indicators frameE ["RSI"])) "RSI" 14 =
      FV.val 100 := by
  have hclose : (sortFrame frameE).getCol? "Close" =
      some (closesE.map FV.val) := by
    rw [sortFrame_eq_self frameE (by decide) (by decide)]
    rfl
  obtain ⟨out, hok, r, hc, hlen, _, hmono⟩ :=
    rsi_zero_denominator_spec frameE ["RSI"] closesE hclose (by simp)
  have hm : ∀ j, j + 1 < closesE.length →
      closesE.getD j 0 < closesE.getD (j + 1) 0 := by
    intro j hj
    have hj14 : j < 14 := by
      have := hj
      simp only [closesE, List.length_cons, List.length_nil] at this
      omega
    interval_cases j <;> norm_num [closesE]
  refine ⟨?_, ?_⟩
  · rw [colAt_eq _ _ _ _ hok hc 13, hmono hm 13 (by norm_num) (by simp [closesE])]
  · rw [colAt_eq _ _ _ _ hok hc 14, hmono hm 14 (by norm_num) (by simp [closesE])]

/-- C4: when MACD is requested, at every position the MACD column equals
the difference of the span-12 and span-26 recursive EMAs of close (both
seeded by close[0], the recursion `emaQ`), the signal column is exactly
the span-9 recursive EMA of the MACD column seeded by MACD[0], and the
histogram equals MACD minus signal exactly. -/
theorem macd_spec (data : Frame) (inds : List String) (cs : List ℚ)
    (hclose : (sortFrame data).getCol? "Close" = some (cs.map FV.val))
    (hm : "MACD" ∈ inds) :
    ∃ out, compute_technical_indicators data inds = Except.ok out ∧
      ∃ m s hist, out.getCol? "MACD" = some m ∧
        out.getCol? "MACD_Signal" = some s ∧
        out.getCol? "MACD_Hist" = some hist ∧
        m.length = cs.length ∧ s.length = cs.length ∧ hist.length = cs.length ∧
        m = (macdQ cs).map FV.val ∧
        s = (emaQ (2 / 10) (macdQ cs)).map FV.val ∧
        (∀ i, i < cs.length → m.getD i FV.nan =
          FV.val ((emaQ (2 / 13) cs).getD i 0 - (emaQ (2 / 27) cs).getD i 0)) ∧
        (∀ i, i < cs.length → hist.getD i FV.nan =
          FV.val ((macdQ cs).getD i 0 - (emaQ (2 / 10) (macdQ cs)).getD i 0)) := by
  refine ⟨_, compute_eq_ok data inds _ hclose,
    macdL (cs.map FV.val), macdSignalL (cs.map FV.val), macdHistL (cs.map FV.val),
    ?_, ?_, ?_, ?_, ?_, ?_, macdL_eq cs, macdSignalL_eq cs, ?_, ?_⟩
  · simp [getCol?_bbBlock, getCol?_rsiBlock, getCol?_macdBlock, hm]
  · simp [getCol?_bbBlock, getCol?_rsiBlock, getCol?_macdBlock, hm]
  · simp [getCol?_bbBlock, getCol?_rsiBlock, getCol?_macdBlock, hm]
  · simp [macdL_eq, macdQ_length]
  · simp [macdSignalL_eq, emaQ_length, macdQ_length]
  · simp [macdHistL_eq, List.length_zipWith, macdQ_length, emaQ_length]
  · intro i hi
    rw [macdL_eq, getD_map FV.val _ _ (by simpa [macdQ_length]) FV.nan 0, macdQ,
      getD_zipWith _ _ _ _ (by simpa [emaQ_length]) (by simpa [emaQ_length]) 0]
  · intro i hi
    rw [macdHistL_eq, getD_map FV.val _ _
      (by simp [List.length_zipWith, macdQ_length, emaQ_length]; omega) FV.nan 0,
      getD_zipWith _ _ _ _ (by simpa [macdQ_length])
        (by simpa [emaQ_length, macdQ_length]) 0]

/-- Witness for C4: on closes 1, 2, 3 the first row has MACD = EMA12[0] -
EMA26[0] = 1 - 1 = 0, signal seeded at 0, histogram 0. -/
theorem macd_spec_witness :
    colAt (outOf (compute_technical_indicators frameB ["MACD"])) "MACD" 0 =
      FV.val 0 ∧
    colAt (outOf (compute_technical_indicators frameB ["MACD"])) "MACD_Signal" 0 =
      FV.val 0 ∧
    colAt (outOf (compute_technical_indicators frameB ["MACD"])) "MACD_Hist" 0 =
      FV.val 0 := by
  have hclose : (sortFrame frameB).getCol? "Close" =
      some (([1, 2, 3] : List ℚ).map FV.val) := by
    rw [sortFrame_eq_self frameB (by decide) (by decide)]
    rfl
  obtain ⟨out, hok, m, s, hist, hcm, hcs, hch, _, _, _, hmq, hsq, hmval, hhval⟩ :=
    macd_spec frameB ["MACD"] [1, 2, 3] hclose (by simp)
  refine ⟨?_, ?_, ?_⟩
  · rw [colAt_eq _ _ _ _ hok hcm 0, hmval 0 (by norm_num)]
    norm_num [emaQ]
  · rw [colAt_eq _ _ _ _ hok hcs 0, hsq,
      getD_map FV.val _ _ (by simp [emaQ_length, macdQ_length]) FV.nan 0,
      emaQ_getD_zero _ _ (by simp [macdQ_length])]
    norm_num [macdQ, emaQ]
  · rw [colAt_eq _ _ _ _ hok hch 0, hhval 0 (by norm_num)]
    norm_num [macdQ, emaQ]

theorem outOf_ok (f : Frame) : outOf (Except.ok f) = f := rfl

/-- C5 counterexample: on a concrete three-row frame with only MACD
requested (and no EMA(12)/EMA(26) request, which the engine does not even
accept as tokens), the returned table DOES contain the intermediate
columns EMA12 and EMA26, so they are exposed, contrary to the claim. -/
theorem macd_intermediates_exposed_cex :
    "EMA12" ∈ (outOf (compute_technical_indicators frameB ["MACD"])).cols.map
      Prod.fst ∧
    "EMA26" ∈ (outOf (compute_technical_indicators frameB ["MACD"])).cols.map
      Prod.fst := by
  have hclose : (sortFrame frameB).getCol? "Close" =
      some (([1, 2, 3] : List ℚ).map FV.val) := by
    rw [sortFrame_eq_self frameB (by decide) (by decide)]
    rfl
  have hok := compute_eq_ok frameB ["MACD"] _ hclose
  rw [hok]
  simp only [outOf_ok]
  constructor
  · rw [names_bbBlock, names_rsiBlock, names_macdBlock]
    simp
  · rw [names_bbBlock, names_rsiBlock, names_macdBlock]
    simp

/-- C5 amended: when MACD is requested (and EMA(12)/EMA(26) are not
independently requested), the returned table DOES contain the intermediate
columns EMA12 and EMA26, holding the span-12 and span-26 EMAs of close:
the engine stores its MACD intermediates in the output. -/
theorem macd_exposes_intermediates (data : Frame) (inds : List String)
    (cs : List ℚ)
    (hclose : (sortFrame data).getCol? "Close" = some (cs.map FV.val))
    (hm : "MACD" ∈ inds)
    (_h12 : "EMA(12)" ∉ inds) (_h26 : "EMA(26)" ∉ inds) :
    ∃ out, compute_technical_indicators data inds = Except.ok out ∧
      out.getCol? "EMA12" = some (ewm (2 / 13) (cs.map FV.val)) ∧
      out.getCol? "EMA26" = some (ewm (2 / 27) (cs.map FV.val)) ∧
      "EMA12" ∈ out.cols.map Prod.fst ∧ "EMA26" ∈ out.cols.map Prod.fst := by
  refine ⟨_, compute_eq_ok data inds _ hclose, ?_, ?_, ?_, ?_⟩
  · simp [getCol?_bbBlock, getCol?_rsiBlock, getCol?_macdBlock, hm]
  · simp [getCol?_bbBlock, getCol?_rsiBlock, getCol?_macdBlock, hm]
  · rw [names_bbBlock, names_rsiBlock, names_macdBlock]
    simp [hm]
  · rw [names_bbBlock, names_rsiBlock, names_macdBlock]
    simp [hm]

/-- Witness for the amended C5: the concrete three-row frame with only
MACD requested returns the EMA12 and EMA26 columns. -/
theorem macd_exposes_intermediates_witness :
    (outOf (compute_technical_indicators frameB ["MACD"])).getCol? "EMA12" =
      some (ewm (2 / 13) (([1, 2, 3] : List ℚ).map FV.val)) ∧
    "EMA26" ∈ (outOf (compute_technical_indicators frameB ["MACD"])).cols.map
      Prod.fst := by
  have hclose : (sortFrame frameB).getCol? "Close" =
      some (([1, 2, 3] : List ℚ).map FV.val) := by
    rw [sortFrame_eq_self frameB (by decide) (by decide)]
    rfl
  obtain ⟨out, hok, h1, h2, h3, h4⟩ :=
    macd_exposes_intermediates frameB ["MACD"] [1, 2, 3] hclose (by simp)
      (by simp) (by simp)
  rw [hok]
  exact ⟨h1, h4⟩

/-- C6: when Bollinger Bands is requested, all four columns are NaN for
the first 19 rows; afterwards BB_MA is the mean of the 20 closes ending at
the row, BB_STD denotes the sample standard deviation s of that window
(the nonnegative real with s² equal to the sample variance), BB_Upper
denotes mean + 2s, BB_Lower denotes mean - 2s, and Upper - Lower = 4s. -/
theorem bollinger_spec (data : Frame) (inds : List String) (cs : List ℚ)
    (hclose : (sortFrame data).getCol? "Close" = some (cs.map FV.val))
    (hbb : "Bollinger Bands" ∈ inds) :
    ∃ out, compute_technical_indicators data inds = Except.ok out ∧
      ∃ ma sd up lo,
        out.getCol? "BB_MA" = some ma ∧ out.getCol? "BB_STD" = some sd ∧
        out.getCol? "BB_Upper" = some up ∧ out.getCol? "BB_Lower" = some lo ∧
        ma.length = cs.length ∧ sd.length = cs.length ∧
        up.length = cs.length ∧ lo.length = cs.length ∧
        (∀ i, i < cs.length → i < 19 →
          ma.getD i FV.nan = FV.nan ∧ sd.getD i FV.nan = FV.nan ∧
          up.getD i FV.nan = FV.nan ∧ lo.getD i FV.nan = FV.nan) ∧
        (∀ i, 19 ≤ i → i < cs.length →
          (windowQ 20 cs i).length = 20 ∧
          ma.getD i FV.nan = FV.val ((windowQ 20 cs i).sum / 20) ∧
          ∃ s : ℝ, s = Real.sqrt ((sampleVar (windowQ 20 cs i) : ℝ)) ∧
            0 ≤ s ∧ s ^ 2 = ((sampleVar (windowQ 20 cs i) : ℝ)) ∧
            (sd.getD i FV.nan).interpR = some s ∧
            (up.getD i FV.nan).interpR =
              some ((((windowQ 20 cs i).sum / 20 : ℚ) : ℝ) + 2 * s) ∧
            (lo.getD i FV.nan).interpR =
              some ((((windowQ 20 cs i).sum / 20 : ℚ) : ℝ) - 2 * s) ∧
            ((((windowQ 20 cs i).sum / 20 : ℚ) : ℝ) + 2 * s) -
              ((((windowQ 20 cs i).sum / 20 : ℚ) : ℝ) - 2 * s) = 4 * s) := by
  refine ⟨_, compute_eq_ok data inds _ hclose,
    rollingMean 20 (cs.map FV.val), rollingStd 20 (cs.map FV.val),
    bbUpperL (cs.map FV.val), bbLowerL (cs.map FV.val),
    ?_, ?_, ?_, ?_, ?_, ?_, ?_, ?_, ?_, ?_⟩
  · simp [getCol?_bbBlock, hbb]
  · simp [getCol?_bbBlock, hbb]
  · simp [getCol?_bbBlock, hbb]
  · simp [getCol?_bbBlock, hbb]
  · simp [rollingMean_length]
  · simp [rollingStd_length]
  · simp [bbUpperL, List.length_zipWith, rollingMean_length, rollingStd_length]
  · simp [bbLowerL, List.length_zipWith, rollingMean_length, rollingStd_length]
  · intro i hi h19
    refine ⟨?_, ?_, ?_, ?_⟩
    · rw [rollingMean_map_val 20 cs i hi FV.nan, if_pos (by omega)]
    · rw [rollingStd_map_val 20 cs i hi FV.nan, if_pos (by omega)]
    · rw [bbUpperL_getD cs i hi, if_pos (by omega)]
    · rw [bbLowerL_getD cs i hi, if_pos (by omega)]
  · intro i h19 hi
    have hwl : (windowQ 20 cs i).length = 20 := windowQ_length 20 cs i (by omega) hi
    have hv : (0 : ℝ) ≤ ((sampleVar (windowQ 20 cs i) : ℝ)) := by
      have h2 := sampleVar_nonneg (windowQ 20 cs i) (by omega)
      exact_mod_cast h2
    refine ⟨hwl, ?_, Real.sqrt ((sampleVar (windowQ 20 cs i) : ℝ)), rfl,
      Real.sqrt_nonneg _, Real.sq_sqrt hv, ?_, ?_, ?_, by ring⟩
    · rw [rollingMean_map_val 20 cs i hi FV.nan, if_neg (by omega)]
      norm_num
    · rw [rollingStd_map_val 20 cs i hi FV.nan, if_neg (by omega), interpR_irr]
      norm_num
    · rw [bbUpperL_getD cs i hi, if_neg (by omega), interpR_irr]
      push_cast
      ring_nf
    · rw [bbLowerL_getD cs i hi, if_neg (by omega), interpR_irr]
      push_cast
      ring_nf

theorem sampleVar_replicate (n : ℕ) (q : ℚ) :
    sampleVar (List.replicate n q) = 0 := by
  unfold sampleVar
  cases n with
  | zero => simp
  | succ m =>
      have hq : (List.replicate (m + 1) q).sum /
          (((List.replicate (m + 1) q).length : ℚ)) = q := by
        rw [List.sum_replicate, List.length_replicate, nsmul_eq_mul]
        have hne : ((m : ℚ) + 1) ≠ 0 := by positivity
        push_cast
        field_simp
      rw [hq, List.map_replicate]
      simp

/-- Witness for C6: the flat scenario, 25 rows of constant close 100;
BB_MA is NaN at row 5, and at row 19 the mean is 100, the standard
deviation denotes 0 and both bands denote 100. -/
theorem bollinger_spec_witness :
    colAt (outOf (compute_technical_indicators frameG ["Bollinger Bands"]))
        "BB_MA" 5 = FV.nan ∧
    colAt (outOf (compute_technical_indicators frameG ["Bollinger Bands"]))
        "BB_MA" 19 = FV.val 100 ∧
    (colAt (outOf (compute_technical_indicators frameG ["Bollinger Bands"]))
        "BB_STD" 19).interpR = some 0 ∧
    (colAt (outOf (compute_technical_indicators frameG ["Bollinger Bands"]))
        "BB_Upper" 19).interpR = some 100 ∧
    (colAt (outOf (compute_technical_indicators frameG ["Bollinger Bands"]))
        "BB_Lower" 19).interpR = some 100 := by
  have hclose : (sortFrame frameG).getCol? "Close" =
      some ((List.replicate 25 (100 : ℚ)).map FV.val) := by
    rw [sortFrame_eq_self frameG (by decide) (by decide)]
    rfl
  obtain ⟨out, hok, ma, sd, up, lo, hma, hsd, hup, hlo, _, _, _, _, hnan, hdef⟩ :=
    bollinger_spec frameG ["Bollinger Bands"] (List.replicate 25 100) hclose
      (by simp)
  have hwin : windowQ 20 (List.replicate 25 (100 : ℚ)) 19 =
      List.replicate 20 (100 : ℚ) := by
    simp [windowQ]
  have hsum : (windowQ 20 (List.replicate 25 (100 : ℚ)) 19).sum = 2000 := by
    rw [hwin, List.sum_replicate]
    norm_num
  have hvar : sampleVar (windowQ 20 (List.replicate 25 (100 : ℚ)) 19) = 0 := by
    rw [hwin, sampleVar_replicate]
  obtain ⟨hwl, hmaval, s, hs, hs0, hs2, hstdi, hupi, hloi, _⟩ :=
    hdef 19 (by norm_num) (by simp)
  have hsz : s = 0 := by
    rw [hs, hvar]
    simp
  refine ⟨?_, ?_, ?_, ?_, ?_⟩
  · rw [colAt_eq _ _ _ _ hok hma 5, (hnan 5 (by simp) (by norm_num)).1]
  · rw [colAt_eq _ _ _ _ hok hma 19, hmaval, hsum]
    norm_num
  · rw [colAt_eq _ _ _ _ hok hsd 19, hstdi, hsz]
  · rw [colAt_eq _ _ _ _ hok hup 19, hupi, hsz, hsum]
    push_cast
    norm_num
  · rw [colAt_eq _ _ _ _ hok hlo 19, hloi, hsz, hsum]
    push_cast
    norm_num

/-- C7: an empty requested set returns a table with exactly the input's
columns, and more generally a name that is neither an input column nor one
of the columns attached for a requested indicator is absent from the
result (columns of non-requested families are not added, not even
null-filled). -/
theorem no_extra_columns_spec (data : Frame) (inds : List String) (cs : List ℚ)
    (hclose : (sortFrame data).getCol? "Close" = some (cs.map FV.val)) :
    ∃ out, compute_technical_indicators data inds = Except.ok out ∧
      (inds = [] → out.cols.map Prod.fst = data.cols.map Prod.fst) ∧
      (∀ nm, nm ∉ data.cols.map Prod.fst →
        (∀ ind ∈ inds, nm ∉ familyCols ind) →
        nm ∉ out.cols.map Prod.fst) := by
  refine ⟨_, compute_eq_ok data inds _ hclose, ?_, ?_⟩
  · rintro rfl
    show (bbBlock [] (cs.map FV.val) (rsiBlock [] (cs.map FV.val)
      (macdBlock [] (cs.map FV.val) (ema50Block [] (cs.map FV.val)
        (ema10Block [] (cs.map FV.val) (sma50Block [] (cs.map FV.val)
          (sma10Block [] (cs.map FV.val)
            (sortFrame data)))))))).cols.map Prod.fst = data.cols.map Prod.fst
    simp only [bbBlock, rsiBlock, macdBlock, ema50Block, ema10Block,
      sma50Block, sma10Block, List.not_mem_nil, if_false]
    exact names_sortFrame data
  · intro nm hnin hfam hmem
    rw [names_bbBlock] at hmem
    rcases hmem with hmem | ⟨htok, hcols⟩
    swap
    · exact hfam _ htok (by simp [familyCols]; tauto)
    rw [names_rsiBlock] at hmem
    rcases hmem with hmem | ⟨htok, hcols⟩
    swap
    · exact hfam _ htok (by simp [familyCols]; tauto)
    rw [names_macdBlock] at hmem
    rcases hmem with hmem | ⟨htok, hcols⟩
    swap
    · exact hfam _ htok (by simp [familyCols]; tauto)
    rw [names_ema50Block] at hmem
    rcases hmem with hmem | ⟨htok, hcols⟩
    swap
    · exact hfam _ htok (by simp [familyCols, hcols])
    rw [names_ema10Block] at hmem
    rcases hmem with hmem | ⟨htok, hcols⟩
    swap
    · exact hfam _ htok (by simp [familyCols, hcols])
    rw [names_sma50Block] at hmem
    rcases hmem with hmem | ⟨htok, hcols⟩
    swap
    · exact hfam _ htok (by simp [familyCols, hcols])
    rw [names_sma10Block] at hmem
    rcases hmem with hmem | ⟨htok, hcols⟩
    swap
    · exact hfam _ htok (by simp [familyCols, hcols])
    rw [names_sortFrame] at hmem
    exact hnin hmem

/-- Witness for C7: requesting nothing on the 11-row scenario frame
returns exactly the input column Close, and SMA10 is absent. -/
theorem no_extra_columns_spec_witness :
    (outOf (compute_technical_indicators frameA [])).cols.map Prod.fst =
      ["Close"] ∧
    "SMA10" ∉ (outOf (compute_technical_indicators frameA [])).cols.map
      Prod.fst := by
  have hclose : (sortFrame frameA).getCol? "Close" = some (closesA.map FV.val) := by
    rw [sortFrame_eq_self frameA (by decide) (by decide)]
    rfl
  obtain ⟨out, hok, hempty, habs⟩ := no_extra_columns_spec frameA [] closesA hclose
  rw [hok, outOf_ok]
  constructor
  · rw [hempty rfl]
    rfl
  · apply habs
    · simp [frameA]
    · intro ind hind
      simp at hind

/-- C8: the engine sorts ascending by Date before computing: every
successful result carries ascending dates, and the engine returns the same
thing on an unsorted input as on its pre-sorted copy (it sorts
defensively rather than assuming the caller sorted). -/
theorem sorts_defensively_spec (data : Frame) (inds : List String)
    (cs : List ℚ)
    (hclose : (sortFrame data).getCol? "Close" = some (cs.map FV.val)) :
    (∃ out, compute_technical_indicators data inds = Except.ok out ∧
      List.Pairwise (fun a b : ℤ => a ≤ b) out.dates) ∧
    compute_technical_indicators (sortFrame data) inds =
      compute_technical_indicators data inds := by
  constructor
  · refine ⟨_, compute_eq_ok data inds _ hclose, ?_⟩
    rw [dates_bbBlock, dates_rsiBlock, dates_macdBlock, dates_ema50Block,
      dates_ema10Block, dates_sma50Block, dates_sma10Block]
    exact sortFrame_dates_sorted data
  · simp only [compute_technical_indicators, sortFrame_idem]

/-- Witness for C8: a frame whose rows arrive out of timestamp order; the
returned dates are ascending and pre-sorting the input changes nothing. -/
theorem sorts_defensively_spec_witness :
    List.Pairwise (fun a b : ℤ => a ≤ b)
      (outOf (compute_technical_indicators frameC ["SMA(10)"])).dates ∧
    compute_technical_indicators (sortFrame frameC) ["SMA(10)"] =
      compute_technical_indicators frameC ["SMA(10)"] := by
  have hclose : (sortFrame frameC).getCol? "Close" =
      some (([1, 2, 3] : List ℚ).map FV.val) := by rfl
  obtain ⟨⟨out, hok, hsorted⟩, heq⟩ :=
    sorts_defensively_spec frameC ["SMA(10)"] [1, 2, 3] hclose
  refine ⟨?_, heq⟩
  rw [hok, outOf_ok]
  exact hsorted

theorem rsiL_nan_iff (cs : List ℚ) (i : ℕ) (h : i < cs.length) :
    ((rsiL (cs.map FV.val)).getD i FV.nan = FV.nan ↔
      i < 13 ∨ (avgGainQ cs i = 0 ∧ avgLossQ cs i = 0)) := by
  rw [rsiL_getD cs i h]
  by_cases h14 : i + 1 < 14
  · rw [if_pos h14]
    constructor
    · intro _
      exact Or.inl (by omega)
    · intro _
      rfl
  · rw [if_neg h14]
    by_cases hl : avgLossQ cs i = 0
    · rw [if_pos hl]
      by_cases hg : avgGainQ cs i = 0
      · rw [if_pos hg]
        constructor
        · intro _
          exact Or.inr ⟨hg, hl⟩
        · intro _
          rfl
      · rw [if_neg hg]
        constructor
        · intro hc
          exact absurd hc (by simp)
        · rintro (h13 | ⟨hg2, _⟩)
          · omega
          · exact absurd hg2 hg
    · rw [if_neg hl]
      constructor
      · intro hc
        exact absurd hc (by simp)
      · rintro (h13 | ⟨_, hl2⟩)
        · omega
        · exact absurd hl2 hl

/-- C9 (amended): if the close column is entirely absent, a call with a
non-empty requested set fails with the MissingColumn error (no partial
result); when the close column is present with finite values, the call
succeeds deterministically and the indicator output columns carry NaN
exactly at the documented rolling-window boundary positions — except RSI,
which is additionally NaN at the documented zero-over-zero positions
(avg_gain = avg_loss = 0). -/
theorem error_handling_spec (data : Frame) (inds : List String) :
    (data.getCol? "Close" = none → inds ≠ [] →
      compute_technical_indicators data inds =
        Except.error (EngineError.missingColumn "Close")) ∧
    (∀ cs : List ℚ, (sortFrame data).getCol? "Close" = some (cs.map FV.val) →
      ∃ out, compute_technical_indicators data inds = Except.ok out ∧
        ("SMA(10)" ∈ inds → ∃ c, out.getCol? "SMA10" = some c ∧
          c.length = cs.length ∧
          ∀ i, i < cs.length → (c.getD i FV.nan = FV.nan ↔ i < 9)) ∧
        ("SMA(50)" ∈ inds → ∃ c, out.getCol? "SMA50" = some c ∧
          c.length = cs.length ∧
          ∀ i, i < cs.length → (c.getD i FV.nan = FV.nan ↔ i < 49)) ∧
        ("EMA(10)" ∈ inds → ∃ c, out.getCol? "EMA10" = some c ∧
          c.length = cs.length ∧
          ∀ i, i < cs.length → c.getD i FV.nan ≠ FV.nan) ∧
        ("EMA(50)" ∈ inds → ∃ c, out.getCol? "EMA50" = some c ∧
          c.length = cs.length ∧
          ∀ i, i < cs.length → c.getD i FV.nan ≠ FV.nan) ∧
        ("MACD" ∈ inds → ∃ m s hist, out.getCol? "MACD" = some m ∧
          out.getCol? "MACD_Signal" = some s ∧
          out.getCol? "MACD_Hist" = some hist ∧
          ∀ i, i < cs.length → m.getD i FV.nan ≠ FV.nan ∧
            s.getD i FV.nan ≠ FV.nan ∧ hist.getD i FV.nan ≠ FV.nan) ∧
        ("Bollinger Bands" ∈ inds → ∃ ma sd up lo,
          out.getCol? "BB_MA" = some ma ∧ out.getCol? "BB_STD" = some sd ∧
          out.getCol? "BB_Upper" = some up ∧ out.getCol? "BB_Lower" = some lo ∧
          ∀ i, i < cs.length →
            ((ma.getD i FV.nan = FV.nan ↔ i < 19) ∧
              (sd.getD i FV.nan = FV.nan ↔ i < 19) ∧
              (up.getD i FV.nan = FV.nan ↔ i < 19) ∧
              (lo.getD i FV.nan = FV.nan ↔ i < 19))) ∧
        ("RSI" ∈ inds → ∃ r, out.getCol? "RSI" = some r ∧
          r.length = cs.length ∧
          ∀ i, i < cs.length → (r.getD i FV.nan = FV.nan ↔
            i < 13 ∨ (avgGainQ cs i = 0 ∧ avgLossQ cs i = 0)))) := by
  constructor
  · intro hnone _
    exact compute_eq_error data inds hnone
  · intro cs hclose
    refine ⟨_, compute_eq_ok data inds _ hclose, ?_, ?_, ?_, ?_, ?_, ?_, ?_⟩
    · intro h
      refine ⟨rollingMean 10 (cs.map FV.val), by
        simp [getCol?_bbBlock, getCol?_rsiBlock, getCol?_macdBlock,
          getCol?_ema50Block, getCol?_ema10Block, getCol?_sma50Block,
          getCol?_sma10Block, h], by simp [rollingMean_length], ?_⟩
      intro i hi
      rw [rollingMean_map_val 10 cs i hi FV.nan]
      by_cases h9 : i + 1 < 10
      · rw [if_pos h9]
        simp
        omega
      · rw [if_neg h9]
        simp
        omega
    · intro h
      refine ⟨rollingMean 50 (cs.map FV.val), by
        simp [getCol?_bbBlock, getCol?_rsiBlock, getCol?_macdBlock,
          getCol?_ema50Block, getCol?_ema10Block, getCol?_sma50Block,
          getCol?_sma10Block, h], by simp [rollingMean_length], ?_⟩
      intro i hi
      rw [rollingMean_map_val 50 cs i hi FV.nan]
      by_cases h49 : i + 1 < 50
      · rw [if_pos h49]
        simp
        omega
      · rw [if_neg h49]
        simp
        omega
    · intro h
      refine ⟨ewm (2 / 11) (cs.map FV.val), by
        simp [getCol?_bbBlock, getCol?_rsiBlock, getCol?_macdBlock,
          getCol?_ema50Block, getCol?_ema10Block, getCol?_sma50Block,
          getCol?_sma10Block, h], by simp [ewm_length], ?_⟩
      intro i hi
      rw [ewm_map_val, getD_map FV.val _ _ (by simpa [emaQ_length]) FV.nan 0]
      simp
    · intro h
      refine ⟨ewm (2 / 51) (cs.map FV.val), by
        simp [getCol?_bbBlock, getCol?_rsiBlock, getCol?_macdBlock,
          getCol?_ema50Block, getCol?_ema10Block, getCol?_sma50Block,
          getCol?_sma10Block, h], by simp [ewm_length], ?_⟩
      intro i hi
      rw [ewm_map_val, getD_map FV.val _ _ (by simpa [emaQ_length]) FV.nan 0]
      simp
    · intro h
      refine ⟨macdL (cs.map FV.val), macdSignalL (cs.map FV.val),
        macdHistL (cs.map FV.val), by
        simp [getCol?_bbBlock, getCol?_rsiBlock, getCol?_macdBlock, h], by
        simp [getCol?_bbBlock, getCol?_rsiBlock, getCol?_macdBlock, h], by
        simp [getCol?_bbBlock, getCol?_rsiBlock, getCol?_macdBlock, h], ?_⟩
      intro i hi
      refine ⟨?_, ?_, ?_⟩
      · rw [macdL_eq, getD_map FV.val _ _ (by simpa [macdQ_length]) FV.nan 0]
        simp
      · rw [macdSignalL_eq, getD_map FV.val _ _
          (by simpa [emaQ_length, macdQ_length]) FV.nan 0]
        simp
      · rw [macdHistL_eq, getD_map FV.val _ _
          (by simp [List.length_zipWith, macdQ_length, emaQ_length]; omega)
          FV.nan 0]
        simp
    · intro h
      refine ⟨rollingMean 20 (cs.map FV.val), rollingStd 20 (cs.map FV.val),
        bbUpperL (cs.map FV.val), bbLowerL (cs.map FV.val), by
        simp [getCol?_bbBlock, h], by simp [getCol?_bbBlock, h], by
        simp [getCol?_bbBlock, h], by simp [getCol?_bbBlock, h], ?_⟩
      intro i hi
      refine ⟨?_, ?_, ?_, ?_⟩
      · rw [rollingMean_map_val 20 cs i hi FV.nan]
        by_cases h19 : i + 1 < 20
        · rw [if_pos h19]
          simp
          omega
        · rw [if_neg h19]
          simp
          omega
      · rw [rollingStd_map_val 20 cs i hi FV.nan]
        by_cases h19 : i + 1 < 20
        · rw [if_pos h19]
          simp
          omega
        · rw [if_neg h19]
          simp
          omega
      · rw [bbUpperL_getD cs i hi]
        by_cases h19 : i + 1 < 20
        · rw [if_pos h19]
          simp
          omega
        · rw [if_neg h19]
          simp
          omega
      · rw [bbLowerL_getD cs i hi]
        by_cases h19 : i + 1 < 20
        · rw [if_pos h19]
          simp
          omega
        · rw [if_neg h19]
          simp
          omega
    · intro h
      refine ⟨rsiL (cs.map FV.val), by
        simp [getCol?_bbBlock, getCol?_rsiBlock, h], by simp [rsiL_length], ?_⟩
      intro i hi
      exact rsiL_nan_iff cs i hi

/-- C9 counterexample: on 14 rows of constant close 100 with RSI
requested, the RSI column is NaN at row 13, where avg_gain = avg_loss = 0,
although 13 is not one of the documented rolling-window boundary rows
0..12: NaN entries are not confined to rolling-window boundary
positions. -/
theorem rsi_nan_past_boundary_cex :
    colAt (outOf (compute_technical_indicators frameD ["RSI"])) "RSI" 13 =
      FV.nan ∧ ¬ (13 : ℕ) < 13 := by
  refine ⟨?_, by omega⟩
  have hclose : (sortFrame frameD).getCol? "Close" =
      some ((List.replicate 14 (100 : ℚ)).map FV.val) := by
    rw [sortFrame_eq_self frameD (by decide) (by decide)]
    rfl
  have hok := compute_eq_ok frameD ["RSI"] _ hclose
  rw [colAt_eq _ _ _ (rsiL ((List.replicate 14 (100 : ℚ)).map FV.val)) hok
    (by simp [getCol?_bbBlock, getCol?_rsiBlock]) 13]
  rw [rsiL_getD _ 13 (by simp), if_neg (by omega),
    if_pos (avgLossQ_replicate 14 100 13), if_pos (avgGainQ_replicate 14 100 13)]

/-- Witness for the amended C9: a frame with no close column fails with
the MissingColumn error, and with close present SMA10 is NaN at a boundary
row. -/
theorem error_handling_spec_witness :
    compute_technical_indicators frameH ["RSI"] =
      Except.error (EngineError.missingColumn "Close") ∧
    colAt (outOf (compute_technical_indicators frameA ["SMA(10)"])) "SMA10" 3 =
      FV.nan := by
  constructor
  · exact (error_handling_spec frameH ["RSI"]).1 (by rfl) (by simp)
  · have hclose : (sortFrame frameA).getCol? "Close" =
        some (closesA.map FV.val) := by
      rw [sortFrame_eq_self frameA (by decide) (by decide)]
      rfl
    obtain ⟨out, hok, hsma, _, _, _, _, _, _⟩ :=
      (error_handling_spec frameA ["SMA(10)"]).2 closesA hclose
    obtain ⟨c, hc, hclen, hiff⟩ := hsma (by simp)
    rw [colAt_eq _ _ _ _ hok hc 3]
    exact (hiff 3 (by simp [closesA])).mpr (by omega)

/-- C10: when RSI is requested on a series of at least 14 rows, the
undefined first difference at row 0 is mapped to gain = 0 and loss = 0
(not propagated as NaN), the rolling averages are NaN exactly on rows
0..12 and thus already defined at row 13 — the first average is built from
the 13 actual changes at rows 1..13 plus the synthetic zero at row 0 —
and RSI is NaN exactly on rows 0..12, modulo the zero-denominator case
avg_gain = avg_loss = 0. -/
theorem rsi_seed_spec (data : Frame) (inds : List String) (cs : List ℚ)
    (hclose : (sortFrame data).getCol? "Close" = some (cs.map FV.val))
    (hrsi : "RSI" ∈ inds) (hlen : 14 ≤ cs.length) :
    ∃ out, compute_technical_indicators data inds = Except.ok out ∧
      ∃ g l ag al r,
        out.getCol? "gain" = some g ∧ out.getCol? "loss" = some l ∧
        out.getCol? "avg_gain" = some ag ∧ out.getCol? "avg_loss" = some al ∧
        out.getCol? "RSI" = some r ∧
        g.getD 0 FV.nan = FV.val 0 ∧ l.getD 0 FV.nan = FV.val 0 ∧
        (∀ i, i < cs.length → ((ag.getD i FV.nan = FV.nan ↔ i < 13) ∧
          (al.getD i FV.nan = FV.nan ↔ i < 13))) ∧
        ag.getD 13 FV.nan = FV.val ((windowQ 14 (gainQ cs) 13).sum / 14) ∧
        (gainQ cs).getD 0 0 = 0 ∧
        (∀ j, 0 < j → j < cs.length → (gainQ cs).getD j 0 =
          if 0 < cs.getD j 0 - cs.getD (j - 1) 0
          then cs.getD j 0 - cs.getD (j - 1) 0 else 0) ∧
        (∀ i, i < cs.length → (r.getD i FV.nan = FV.nan ↔
          i < 13 ∨ (avgGainQ cs i = 0 ∧ avgLossQ cs i = 0))) := by
  have h0 : 0 < cs.length := by omega
  refine ⟨_, compute_eq_ok data inds _ hclose,
    gainL (cs.map FV.val), lossL (cs.map FV.val),
    avgGainL (cs.map FV.val), avgLossL (cs.map FV.val), rsiL (cs.map FV.val),
    ?_, ?_, ?_, ?_, ?_, ?_, ?_, ?_, ?_, ?_, ?_, ?_⟩
  · simp [getCol?_bbBlock, getCol?_rsiBlock, hrsi]
  · simp [getCol?_bbBlock, getCol?_rsiBlock, hrsi]
  · simp [getCol?_bbBlock, getCol?_rsiBlock, hrsi]
  · simp [getCol?_bbBlock, getCol?_rsiBlock, hrsi]
  · simp [getCol?_bbBlock, getCol?_rsiBlock, hrsi]
  · rw [gainL_eq, getD_map FV.val _ _ (by simpa [gainQ_length]) FV.nan 0,
      gainQ_getD cs 0 h0]
    simp
  · rw [lossL_eq, getD_map FV.val _ _ (by simpa [lossQ_length]) FV.nan 0,
      lossQ_getD cs 0 h0]
    simp
  · intro i hi
    constructor
    · rw [avgGainL_getD cs i hi]
      by_cases h14 : i + 1 < 14
      · rw [if_pos h14]
        simp
        omega
      · rw [if_neg h14]
        simp
        omega
    · rw [avgLossL_getD cs i hi]
      by_cases h14 : i + 1 < 14
      · rw [if_pos h14]
        simp
        omega
      · rw [if_neg h14]
        simp
        omega
  · rw [avgGainL_getD cs 13 (by omega), if_neg (by omega)]
    rfl
  · rw [gainQ_getD cs 0 h0]
    simp
  · intro j hj0 hj
    rw [gainQ_getD cs j hj, if_neg (by omega)]
  · intro i hi
    exact rsiL_nan_iff cs i hi

/-- Witness for C10: on 14 rows of constant close 100, gain and loss are 0
at row 0, avg_gain is NaN at row 12 but equals 0 at row 13, and RSI at
row 13 is NaN only because of the zero-over-zero case. -/
theorem rsi_seed_spec_witness :
    colAt (outOf (compute_technical_indicators frameD ["RSI"])) "gain" 0 =
      FV.val 0 ∧
    colAt (outOf (compute_technical_indicators frameD ["RSI"])) "loss" 0 =
      FV.val 0 ∧
    colAt (outOf (compute_technical_indicators frameD ["RSI"])) "avg_gain" 12 =
      FV.nan ∧
    colAt (outOf (compute_technical_indicators frameD ["RSI"])) "avg_gain" 13 =
      FV.val 0 := by
  have hclose : (sortFrame frameD).getCol? "Close" =
      some ((List.replicate 14 (100 : ℚ)).map FV.val) := by
    rw [sortFrame_eq_self frameD (by decide) (by decide)]
    rfl
  obtain ⟨out, hok, g, l, ag, al, r, hg, hl, hag, hal, hr, hg0, hl0, hiff,
      hag13, _, _, _⟩ :=
    rsi_seed_spec frameD ["RSI"] (List.replicate 14 100) hclose (by simp)
      (by simp)
  refine ⟨?_, ?_, ?_, ?_⟩
  · rw [colAt_eq _ _ _ _ hok hg 0]
    exact hg0
  · rw [colAt_eq _ _ _ _ hok hl 0]
    exact hl0
  · rw [colAt_eq _ _ _ _ hok hag 12]
    exact (hiff 12 (by simp)).1.mpr (by omega)
  · rw [colAt_eq _ _ _ _ hok hag 13, hag13]
    have hz : (windowQ 14 (gainQ (List.replicate 14 (100 : ℚ))) 13).sum = 0 := by
      rw [List.sum_eq_zero]
      intro x hx
      exact gainQ_replicate_zero 14 100 x (windowQ_subset _ _ _ x hx)
    rw [hz]
    norm_num
